/-
Verification of the subiculum-lit-analysis ETL pipeline.

Shallow embedding of the core components:
  * `XmlParser`  — src/transform/xml_parser.py (pure transform of one raw
    document batch into paper record graphs);
  * `DbWriter`   — src/load/db_writer.py (per-paper transactional loader
    over an SQLite store, modelled as explicit list-based tables);
  * `Pipeline`   — src/pipeline.py (orchestrator loop: idempotent skip,
    per-paper insert, running counters);
  * `ApiClient`  — src/extract/api_client.py (`_retry_request` retry loop,
    modelled as a recursion over an oracle of per-attempt outcomes with an
    explicit event trace for requests and backoff sleeps).

Python-value conventions used throughout the embedding:
  * an XML element's text is `Option String`; `none` stands for a missing
    element or a `None` text, `some s` for an actual string (lxml never
    merges the two cases, but every site in this code guards them with the
    same truthiness test, so the collapse is behaviour-preserving);
  * Python string truthiness is `truthy` (empty string and `None` falsy);
  * Python `int(str)` is `pyInt` (ASCII digits, optional sign, surrounding
    whitespace, single underscores between digits; `none` = `ValueError`);
  * Python timestamps (`datetime.now().isoformat()`) are abstracted as a
    `Nat` supplied per call.
-/
import Mathlib

set_option maxHeartbeats 1000000

/-- The ASCII whitespace stripped by Python `str.strip()` and `int()`. -/
def pyIsSpace (c : Char) : Bool :=
  c == ' ' || c == '\t' || c == '\n' || c == '\r' || c == '\x0b' || c == '\x0c'

/-- Strip on the character list: drop whitespace from both ends. -/
def trimChars (l : List Char) : List Char :=
  ((l.dropWhile pyIsSpace).reverse.dropWhile pyIsSpace).reverse

/-- Python `str.strip()` (ASCII whitespace). -/
def pyStrip (s : String) : String := ⟨trimChars s.data⟩

/-- Python `str.lower()` on ASCII letters. -/
def pyLowerChar (c : Char) : Char :=
  if 'A' ≤ c ∧ c ≤ 'Z' then Char.ofNat (c.toNat + 32) else c

/-- Python `str.lower()` (ASCII). -/
def pyLower (s : String) : String := ⟨s.data.map pyLowerChar⟩

/-- Python string truthiness for an optional element text: `None` and the
empty string are falsy, everything else is truthy. -/
def truthy : Option String → Bool
  | none => false
  | some s => !(s == "")

/-- Validity of the digit part accepted by Python `int()` after the optional
sign: nonempty, ASCII digits, single underscores strictly between digits. -/
def digitsCore : List Char → Bool
  | [] => true
  | [c] => c.isDigit
  | c :: c₂ :: rest =>
    (c.isDigit || (c == '_' && c₂.isDigit)) && digitsCore (c₂ :: rest)

/-- Digit-part check including the leading character (no leading underscore). -/
def digitsValid (ds : List Char) : Bool :=
  match ds with
  | [] => false
  | c :: _ => c.isDigit && digitsCore ds

/-- Numeric value of a valid digit part (underscores skipped). -/
def digitsVal (ds : List Char) : Nat :=
  (ds.filter (· != '_')).foldl (fun a c => a * 10 + (c.toNat - '0'.toNat)) 0

/-- Python `int(s)` for a `str` argument: strips surrounding whitespace,
accepts an optional `+`/`-` sign and ASCII digits with single underscores
between digits; `none` models a raised `ValueError`. -/
def pyInt (s : String) : Option Int :=
  match trimChars s.data with
  | [] => none
  | c :: rest =>
    if c == '-' then
      if digitsValid rest then some (-(digitsVal rest : Int)) else none
    else if c == '+' then
      if digitsValid rest then some (digitsVal rest : Int) else none
    else
      if digitsValid (c :: rest) then some (digitsVal (c :: rest) : Int) else none

namespace XmlParser

/-- `_get_text` from xml_parser.py: `child.text.strip()` when the element is
present with truthy text, else `None`. -/
def _get_text : Option String → Option String
  | none => none
  | some s => if s == "" then none else some (pyStrip s)

/-- The month-name table of `_normalize_month` (keys lowercase). -/
def monthNames : List (String × Int) :=
  [("jan", 1), ("january", 1),
   ("feb", 2), ("february", 2),
   ("mar", 3), ("march", 3),
   ("apr", 4), ("april", 4),
   ("may", 5),
   ("jun", 6), ("june", 6),
   ("jul", 7), ("july", 7),
   ("aug", 8), ("august", 8),
   ("sep", 9), ("september", 9),
   ("oct", 10), ("october", 10),
   ("nov", 11), ("november", 11),
   ("dec", 12), ("december", 12)]

/-- `_normalize_month` from xml_parser.py: try `int()` first (result only
kept inside 1–12), otherwise look the lowercased string up in the
month-name table; total — a `ValueError` from `int()` is caught. -/
def _normalize_month (s : String) : Option Int :=
  match pyInt s with
  | some m => if 1 ≤ m ∧ m ≤ 12 then some m else none
  | none => monthNames.lookup (pyLower s)

/-- `<Author>` element: `LastName`/`ForeName`/`Initials` texts, the
`<Identifier>` children as (Source attribute, text) pairs, and the
`AffiliationInfo/Affiliation` text. -/
structure AuthorElem where
  lastName : Option String
  foreName : Option String
  initialsText : Option String
  identifiers : List (Option String × Option String)
  affiliationText : Option String
deriving DecidableEq, Repr

/-- `<Reference>` element: `ArticleIdList/ArticleId` children as (IdType
attribute, text) pairs, plus the `Citation` element text. -/
structure RefElem where
  articleIds : List (Option String × Option String)
  citationText : Option String
deriving DecidableEq, Repr

/-- `<Journal>` element texts. -/
structure JournalElem where
  titleText : Option String
  issnText : Option String
  isoText : Option String
deriving DecidableEq, Repr

/-- `<JournalIssue>/<PubDate>` element texts. -/
structure PubDateElem where
  yearText : Option String
  monthText : Option String
  dayText : Option String
deriving DecidableEq, Repr

/-- One `<PubmedArticle>` document, restricted to the features the parser
reads. `articleIds` are the `ArticleIdList/ArticleId` children as (IdType
attribute, text); `abstractTexts` the `Abstract/AbstractText` children as
(Label attribute, text); `statusAttr` the `MedlineCitation` `Status`
attribute. -/
structure Article where
  pmidText : Option String
  titleText : Option String
  articleIds : List (Option String × Option String)
  abstractTexts : List (Option String × Option String)
  journal : Option JournalElem
  pubDate : Option PubDateElem
  volumeText : Option String
  issueText : Option String
  pagesText : Option String
  languageText : Option String
  statusAttr : Option String
  authorList : Option (List AuthorElem)
  referenceList : Option (List RefElem)
deriving DecidableEq, Repr

/-- Author dictionary produced by `parse_authors`. -/
structure Author where
  last_name : String
  fore_name : Option String
  initials : Option String
  orcid : Option String
  affiliation : Option String
  position : Nat
deriving DecidableEq, Repr

/-- Citation dictionary produced by `parse_citations`. -/
structure Citation where
  cited_pmid : Option Int
  cited_doi : Option String
  citation_text : Option String
deriving DecidableEq, Repr

/-- `open_access` dictionary accepted by the loader (`paper.get('open_access',
{})`); the parser itself never produces one, so its `open_access` is `none`. -/
structure OpenAccess where
  pmc_id : Option String
  is_open_access : Bool
  pmc_url : Option String
  pdf_url : Option String
  license : Option String
deriving DecidableEq, Repr

/-- Paper dictionary produced by `parse_paper` and consumed by
`insert_paper`. -/
structure Paper where
  pmid : Int
  doi : Option String
  pmc_id : Option String
  title : String
  abstract : Option String
  language : Option String
  journal_name : Option String
  journal_issn : Option String
  journal_iso_abbrev : Option String
  pub_year : Option Int
  pub_month : Option Int
  pub_day : Option Int
  volume : Option String
  issue : Option String
  pages : Option String
  publication_status : Option String
  authors : List Author
  citations : List Citation
  open_access : Option OpenAccess
deriving DecidableEq, Repr

/-- The doi/pmc extraction loop over `ArticleIdList/ArticleId`: later
matches overwrite earlier ones; texts are taken unguarded. -/
def extractArticleIds : List (Option String × Option String) →
    Option String × Option String → Option String × Option String
  | [], acc => acc
  | (ty, tx) :: rest, acc =>
    if ty == some "doi" then extractArticleIds rest (tx, acc.2)
    else if ty == some "pmc" then extractArticleIds rest (acc.1, tx)
    else extractArticleIds rest acc

/-- Abstract assembly: each part is `"{Label}: {text}"` when the Label
attribute is truthy, else the bare text (`None` text becomes `''`); parts are
joined with a single space and stripped; an empty part list yields `None`. -/
def buildAbstract (parts : List (Option String × Option String)) : Option String :=
  match parts with
  | [] => none
  | _ =>
    some (pyStrip (String.intercalate " " (parts.map (fun lt =>
      let t := lt.2.getD ""
      match lt.1 with
      | some l => if l == "" then t else l ++ ": " ++ t
      | none => t))))

/-- `int(elem.text) if elem is not None and elem.text else None` — the
pattern used for `Year` and `Day`; an unparsable truthy text raises. -/
def optIntText : Option String → Except String (Option Int)
  | none => .ok none
  | some s =>
    if s == "" then .ok none
    else
      match pyInt s with
      | some n => .ok (some n)
      | none => .error ("invalid literal for int() with base 10: " ++ s)

/-- Publication-date extraction: year (may raise), then month (total), then
day (may raise); absent `<PubDate>` yields three `None`s. -/
def parse_pub_date : Option PubDateElem →
    Except String (Option Int × Option Int × Option Int)
  | none => .ok (none, none, none)
  | some pd =>
    match optIntText pd.yearText with
    | .error e => .error e
    | .ok y =>
      match optIntText pd.dayText with
      | .error e => .error e
      | .ok d =>
        .ok (y,
          (match pd.monthText with
            | some ms => if ms == "" then none else _normalize_month ms
            | none => none),
          d)

/-- First `<Identifier>` whose Source attribute is `ORCID`; its raw text
(possibly `None`) is taken. -/
def findOrcid : List (Option String × Option String) → Option String
  | [] => none
  | (src, tx) :: rest => if src == some "ORCID" then tx else findOrcid rest

/-- The `parse_authors` loop body: 1-based position counts every `<Author>`
element, including the ones skipped for a missing/empty `LastName`. -/
def parse_authors_list : Nat → List AuthorElem → List Author
  | _, [] => []
  | pos, ae :: rest =>
    match ae.lastName with
    | none => parse_authors_list (pos + 1) rest
    | some ln =>
      if ln == "" then parse_authors_list (pos + 1) rest
      else
        { last_name := pyStrip ln
          fore_name := _get_text ae.foreName
          initials := _get_text ae.initialsText
          orcid := findOrcid ae.identifiers
          affiliation := _get_text ae.affiliationText
          position := pos } :: parse_authors_list (pos + 1) rest

/-- `parse_authors` from xml_parser.py: absent `<AuthorList>` yields `[]`. -/
def parse_authors (al : Option (List AuthorElem)) : List Author :=
  match al with
  | none => []
  | some l => parse_authors_list 1 l

/-- The per-reference id loop: `pubmed` ids are `int()`-parsed when the text
is truthy (raising on bad text, `None` otherwise), `doi` ids are taken raw;
later matches overwrite earlier ones. -/
def extractRefIds : List (Option String × Option String) →
    Option Int × Option String → Except String (Option Int × Option String)
  | [], acc => .ok acc
  | (ty, tx) :: rest, acc =>
    if ty == some "pubmed" then
      match tx with
      | some t =>
        if t == "" then extractRefIds rest (none, acc.2)
        else
          match pyInt t with
          | some n => extractRefIds rest (some n, acc.2)
          | none => .error ("invalid literal for int() with base 10: " ++ t)
      | none => extractRefIds rest (none, acc.2)
    else if ty == some "doi" then extractRefIds rest (acc.1, tx)
    else extractRefIds rest acc

/-- Python falsiness of the extracted cited pmid (`None` or `0`). -/
def falsyIntOpt : Option Int → Bool
  | none => true
  | some n => n == 0

/-- The `parse_citations` loop: a reference whose cited pmid and cited doi
are both falsy is dropped; the rest are kept in document order. -/
def parse_citations_list : List RefElem → Except String (List Citation)
  | [] => .ok []
  | r :: rest =>
    match extractRefIds r.articleIds (none, none) with
    | .error e => .error e
    | .ok ids =>
      match parse_citations_list rest with
      | .error e => .error e
      | .ok tail =>
        if falsyIntOpt ids.1 && !(truthy ids.2) then .ok tail
        else .ok ({ cited_pmid := ids.1, cited_doi := ids.2,
                    citation_text := _get_text r.citationText } :: tail)

/-- `parse_citations` from xml_parser.py: absent `<ReferenceList>` yields `[]`. -/
def parse_citations (rl : Option (List RefElem)) : Except String (List Citation) :=
  match rl with
  | none => .ok []
  | some l => parse_citations_list l

/-- `parse_paper` from xml_parser.py. `ok none` models the skip-with-warning
paths (missing/empty PMID or title); `error` models a raised `ValueError`
from `int()` on the PMID, Year, Day or cited-pmid text. -/
def parse_paper (a : Article) : Except String (Option Paper) :=
  match a.pmidText with
  | none => .ok none
  | some pm =>
    if pm == "" then .ok none
    else
      match pyInt pm with
      | none => .error ("invalid literal for int() with base 10: " ++ pm)
      | some pmid =>
        match a.titleText with
        | none => .ok none
        | some tt =>
          if tt == "" then .ok none
          else
            match parse_pub_date a.pubDate with
            | .error e => .error e
            | .ok ymd =>
            match parse_citations a.referenceList with
            | .error e => .error e
            | .ok cits =>
            let ids := extractArticleIds a.articleIds (none, none)
            .ok (some
              { pmid := pmid
                doi := ids.1
                pmc_id := ids.2
                title := pyStrip tt
                abstract := buildAbstract a.abstractTexts
                language := _get_text a.languageText
                journal_name := match a.journal with
                  | some j => _get_text j.titleText | none => none
                journal_issn := match a.journal with
                  | some j => _get_text j.issnText | none => none
                journal_iso_abbrev := match a.journal with
                  | some j => _get_text j.isoText | none => none
                pub_year := ymd.1
                pub_month := ymd.2.1
                pub_day := ymd.2.2
                volume := _get_text a.volumeText
                issue := _get_text a.issueText
                pages := _get_text a.pagesText
                publication_status := a.statusAttr
                authors := parse_authors a.authorList
                citations := cits
                open_access := none })

/-- The `parse_xml_batch` loop over the `<PubmedArticle>` documents of one
batch: collects the parsed papers in document order and counts the
skip diagnostics (one warning per `None` result of `parse_paper`); an
exception from any document aborts the whole batch. -/
def parse_docs : List Article → Except String (List Paper × Nat)
  | [] => .ok ([], 0)
  | a :: rest =>
    match parse_paper a with
    | .error e => .error e
    | .ok p? =>
      match parse_docs rest with
      | .error e => .error e
      | .ok tl =>
        match p? with
        | some p => .ok (p :: tl.1, tl.2)
        | none => .ok (tl.1, tl.2 + 1)

/-- `parse_xml_batch` from xml_parser.py, after the (out-of-scope) string →
document-list XML decoding. -/
def parse_xml_batch (batch : List Article) : Except String (List Paper × Nat) :=
  parse_docs batch

end XmlParser

namespace DbWriter

open XmlParser

/-- Row of the `papers` table. -/
structure PaperRow where
  pmid : Int
  doi : Option String
  pmc_id : Option String
  title : String
  abstract : Option String
  language : Option String
  journal_name : Option String
  journal_issn : Option String
  journal_iso_abbrev : Option String
  pub_year : Option Int
  pub_month : Option Int
  pub_day : Option Int
  volume : Option String
  issue : Option String
  pages : Option String
  publication_status : Option String
  fetch_date : Nat
deriving DecidableEq, Repr

/-- Row of the `authors` table (`author_id` is the surrogate key). -/
structure AuthorRow where
  author_id : Nat
  last_name : String
  fore_name : Option String
  initials : Option String
  orcid : Option String
deriving DecidableEq, Repr

/-- Row of the `paper_authors` link table. -/
structure PaperAuthorRow where
  pmid : Int
  author_id : Nat
  author_position : Nat
  affiliation : Option String
deriving DecidableEq, Repr

/-- Row of the `citations` table. -/
structure CitationRow where
  citing_pmid : Int
  cited_pmid : Option Int
  cited_doi : Option String
  citation_text : Option String
deriving DecidableEq, Repr

/-- Row of the `fetch_log` table. -/
structure FetchLogRow where
  pmid : Int
  fetch_attempt_date : Nat
  fetch_success : Bool
  retry_count : Nat
deriving DecidableEq, Repr

/-- Row of the `paper_open_access` table. -/
structure OpenAccessRow where
  pmid : Int
  pmc_id : Option String
  is_open_access : Bool
  pmc_url : Option String
  pdf_url : Option String
  license : Option String
deriving DecidableEq, Repr

/-- Row of the `paper_search_sources` table. -/
structure SearchSourceRow where
  pmid : Int
  search_type : String
  search_query : String
  found_date : Nat
deriving DecidableEq, Repr

/-- The SQLite store: one list per table, plus the next `authors` surrogate
key (SQLite `lastrowid` discipline). Modelled from the spec: `data/schema.sql`
is not under src/; §6 gives the tables and their uniqueness/foreign-key
invariants (papers keyed by identifier; paper-author links unique on
paper+position and on paper+author; authors under a surrogate key). -/
structure Db where
  papers : List PaperRow
  authors : List AuthorRow
  paper_authors : List PaperAuthorRow
  citations : List CitationRow
  fetch_log : List FetchLogRow
  paper_open_access : List OpenAccessRow
  paper_search_sources : List SearchSourceRow
  next_author_id : Nat
deriving DecidableEq, Repr

/-- A freshly created (schema-only) store. -/
def emptyDb : Db := ⟨[], [], [], [], [], [], [], 1⟩

/-- One line of `logs/write_failure.log`: ISO timestamp, pmid, message. -/
structure FailEntry where
  ts : Nat
  pmid : Int
  msg : String
deriving DecidableEq, Repr

/-- `_insert_paper_record`: plain INSERT into `papers`. Modelled from the
spec: §6 keys the papers table by the identifier, so a duplicate pmid raises
a uniqueness violation. -/
def mkPaperRow (p : Paper) (ts : Nat) : PaperRow :=
  { pmid := p.pmid, doi := p.doi, pmc_id := p.pmc_id, title := p.title
    abstract := p.abstract, language := p.language
    journal_name := p.journal_name, journal_issn := p.journal_issn
    journal_iso_abbrev := p.journal_iso_abbrev
    pub_year := p.pub_year, pub_month := p.pub_month, pub_day := p.pub_day
    volume := p.volume, issue := p.issue, pages := p.pages
    publication_status := p.publication_status, fetch_date := ts }

def _insert_paper_record (db : Db) (p : Paper) (ts : Nat) : Except String Db :=
  if db.papers.any (fun r => r.pmid == p.pmid) then
    .error "UNIQUE constraint failed: papers.pmid"
  else
    .ok { db with papers := db.papers ++ [mkPaperRow p ts] }

/-- The composite author-identity key used by the loader: (last name,
given name, ORCID), where the optional parts compare with SQLite `IS`
(two NULLs are equal). -/
abbrev AuthKey := String × Option String × Option String

/-- The WHERE clause of `_get_or_create_author`'s SELECT:
`last_name = ? AND fore_name IS ? AND orcid IS ?`. -/
def keyMatch (k : AuthKey) (r : AuthorRow) : Bool :=
  r.last_name == k.1 && r.fore_name == k.2.1 && r.orcid == k.2.2

/-- `_get_or_create_author`: SELECT on exact equality of the composite key
(`last_name = ?`, `fore_name IS ?`, `orcid IS ?` — SQLite `IS` equates two
NULLs), first match wins; on a miss, INSERT a fresh row and return its
surrogate key. -/
def _get_or_create_author (db : Db) (last : String)
    (fore initials orcid : Option String) : Nat × Db :=
  match db.authors.find? (keyMatch (last, fore, orcid)) with
  | some r => (r.author_id, db)
  | none =>
    (db.next_author_id,
     { db with
        authors := db.authors ++
          [{ author_id := db.next_author_id, last_name := last
             fore_name := fore, initials := initials, orcid := orcid }]
        next_author_id := db.next_author_id + 1 })

/-- INSERT into `paper_authors`. Modelled from the spec: §3/§6 make
(paper, author) and (paper, position) unique, enforced at the storage
layer (confirmed by tests/test_db_integration.py steps 6 and 7). -/
def insertPaperAuthorRow (db : Db) (row : PaperAuthorRow) : Except String Db :=
  if db.paper_authors.any (fun r =>
      r.pmid == row.pmid && r.author_id == row.author_id) then
    .error "UNIQUE constraint failed: paper_authors.pmid, paper_authors.author_id"
  else if db.paper_authors.any (fun r =>
      r.pmid == row.pmid && r.author_position == row.author_position) then
    .error "UNIQUE constraint failed: paper_authors.pmid, paper_authors.author_position"
  else
    .ok { db with paper_authors := db.paper_authors ++ [row] }

/-- `_insert_authors`: resolve-or-create each author, then link it to the
paper, in list order. -/
def _insert_authors (db : Db) (pmid : Int) : List Author → Except String Db
  | [] => .ok db
  | a :: rest =>
    match insertPaperAuthorRow
        (_get_or_create_author db a.last_name a.fore_name a.initials a.orcid).2
        { pmid := pmid
          author_id := (_get_or_create_author db a.last_name a.fore_name a.initials a.orcid).1
          author_position := a.position, affiliation := a.affiliation } with
    | .error e => .error e
    | .ok db' => _insert_authors db' pmid rest

/-- `_insert_citations`: plain INSERTs in list order. Modelled from the
spec: §3 states no uniqueness invariant for citations, so these never
conflict. -/
def _insert_citations (db : Db) (pmid : Int) (cs : List Citation) : Db :=
  { db with citations := db.citations ++ cs.map (fun c =>
      { citing_pmid := pmid, cited_pmid := c.cited_pmid
        cited_doi := c.cited_doi, citation_text := c.citation_text }) }

/-- `_insert_open_access`: falsy dict → no-op; otherwise INSERT OR IGNORE.
Modelled from the spec: §3 makes the open-access record a 1:1 attribute of
a paper, so the row is keyed (and ignored) on the pmid. -/
def _insert_open_access (db : Db) (pmid : Int) (oa : Option OpenAccess) : Db :=
  match oa with
  | none => db
  | some o =>
    if db.paper_open_access.any (fun r => r.pmid == pmid) then db
    else
      { db with paper_open_access := db.paper_open_access ++
          [{ pmid := pmid, pmc_id := o.pmc_id
             is_open_access := o.is_open_access, pmc_url := o.pmc_url
             pdf_url := o.pdf_url, license := o.license }] }

/-- `_update_fetch_log`: INSERT one attempt row (`retry_count` 0). -/
def _update_fetch_log (db : Db) (pmid : Int) (ts : Nat) (success : Bool) : Db :=
  { db with fetch_log := db.fetch_log ++
      [{ pmid := pmid, fetch_attempt_date := ts
         fetch_success := success, retry_count := 0 }] }

/-- `_insert_search_source`: INSERT OR IGNORE, idempotent per
(pmid, search_type) as stated in §3 for the search-source record. -/
def _insert_search_source (db : Db) (pmid : Int) (src q : String) (ts : Nat) : Db :=
  if db.paper_search_sources.any (fun r =>
      r.pmid == pmid && r.search_type == src) then db
  else
    { db with paper_search_sources := db.paper_search_sources ++
        [{ pmid := pmid, search_type := src, search_query := q, found_date := ts }] }

/-- The insert sequence of `insert_paper` inside `BEGIN TRANSACTION`:
paper row, authors + links, citations, open-access row, fetch-log success
row, search-source row. -/
def runInsertSteps (db : Db) (p : Paper) (ts : Nat) (src q : String) :
    Except String Db :=
  match _insert_paper_record db p ts with
  | .error e => .error e
  | .ok db₁ =>
    match _insert_authors db₁ p.pmid p.authors with
    | .error e => .error e
    | .ok db₂ =>
      .ok (_insert_search_source
        (_update_fetch_log
          (_insert_open_access (_insert_citations db₂ p.pmid p.citations) p.pmid p.open_access)
          p.pmid ts true)
        p.pmid src q ts)

/-- `insert_paper` from db_writer.py: commit on success; on any exception
roll the transaction back (the store reverts to its pre-call state), append
`(timestamp, pmid, message)` to `logs/write_failure.log`, and return
`False` instead of propagating. -/
def insert_paper (db : Db) (flog : List FailEntry) (p : Paper) (ts : Nat)
    (src q : String) : Bool × Db × List FailEntry :=
  match runInsertSteps db p ts src q with
  | .ok db' => (true, db', flog)
  | .error e => (false, db, flog ++ [{ ts := ts, pmid := p.pmid, msg := e }])

/-- `get_fetched_pmids`: the set of pmids having a `fetch_log` row with
`fetch_success = 1` (returned deduplicated, as a Python set). -/
def get_fetched_pmids (db : Db) : List Int :=
  ((db.fetch_log.filter (fun r => r.fetch_success)).map (fun r => r.pmid)).dedup

end DbWriter

namespace Pipeline

open XmlParser DbWriter

/-- The orchestrator's loop state: the store, the external failure log, the
in-memory processed set (`fetched_pmids`), the running counters, and the
trace of `insert_paper` calls as (pmid, returned flag) in call order. -/
structure PipeState where
  db : Db
  flog : List FailEntry
  fetched : List Int
  inserted : Nat
  failed : Nat
  skipped : Nat
  attempts : List (Int × Bool)
deriving DecidableEq, Repr

/-- The per-paper body of `Pipeline.run`: skip when the pmid is in the
in-memory processed set; otherwise call `insert_paper`, and on success add
the pmid to the set. -/
def processPaper (ts : Nat) (src q : String) (st : PipeState)
    (p : Paper) : PipeState :=
  if st.fetched.contains p.pmid then
    { st with skipped := st.skipped + 1 }
  else if (insert_paper st.db st.flog p ts src q).1 then
    { st with db := (insert_paper st.db st.flog p ts src q).2.1
              flog := (insert_paper st.db st.flog p ts src q).2.2
              inserted := st.inserted + 1
              fetched := st.fetched ++ [p.pmid]
              attempts := st.attempts ++ [(p.pmid, true)] }
  else
    { st with db := (insert_paper st.db st.flog p ts src q).2.1
              flog := (insert_paper st.db st.flog p ts src q).2.2
              failed := st.failed + 1
              attempts := st.attempts ++ [(p.pmid, false)] }

/-- One page of `Pipeline.run`: `none` models a batch whose fetch or parse
raised (logged, `continue`), `some papers` a successfully parsed batch. -/
def processBatch (ts : Nat) (src q : String) (st : PipeState)
    (b : Option (List Paper)) : PipeState :=
  (b.getD []).foldl (processPaper ts src q) st

/-- `Pipeline.run` from pipeline.py, after the search phase: derive the
processed set from the durable store, return trivially when the search
count equals its size (`remaining == 0`), otherwise iterate the pages in
order. `total` is the ESearch count, `batches` the per-page fetch+parse
results; network and timestamps are abstracted as parameters. -/
def run (batches : List (Option (List Paper))) (total : Nat) (db0 : Db)
    (flog0 : List FailEntry) (ts : Nat) (src q : String) : PipeState :=
  let fetched0 := get_fetched_pmids db0
  let st0 : PipeState := ⟨db0, flog0, fetched0, 0, 0, 0, []⟩
  if total = fetched0.length then st0
  else batches.foldl (processBatch ts src q) st0

end Pipeline

namespace ApiClient

/-- Outcome of one HTTP attempt inside `_retry_request`: a timeout, or a
response with a status code (the `Retry-After` header value is carried for
429s; `requests.Response.raise_for_status` raises exactly for
400 ≤ status < 600). -/
inductive Outcome where
  | timeout : Outcome
  | http : Nat → Nat → Outcome
deriving DecidableEq, Repr

/-- Observable events of `_retry_request`: issuing the attempt-`i` request,
or sleeping `d` seconds (backoff or Retry-After). The rate-limiter wait in
`_wait_if_needed` is pacing, not backoff, and is not modelled. -/
inductive ReqEvent where
  | req : Nat → ReqEvent
  | sleep : Nat → ReqEvent
deriving DecidableEq, Repr

/-- Exceptions `_retry_request` can propagate: a `Timeout`, an `HTTPError`
with its status, or the final `RequestException` when the loop body never
runs. -/
inductive ReqError where
  | timeoutErr : ReqError
  | httpErr : Nat → ReqError
  | requestExhausted : ReqError
deriving DecidableEq, Repr

/-- `_calculate_backoff`: `min(base ** attempt, max)`. -/
def _calculate_backoff (base cap attempt : Nat) : Nat :=
  min (base ^ attempt) cap

/-- The `for attempt in range(max_retries)` loop of `_retry_request`, from
attempt index `attempt` on: on success return the winning attempt index; a
timeout or a 5xx backs off and retries while attempts remain; a 429 always
sleeps the server's Retry-After, then retries while attempts remain; any
other 4xx raises immediately with no sleep. The second component is the
trace of requests and sleeps. -/
def retryGo (out : Nat → Outcome) (base cap maxRetries attempt : Nat) :
    Except ReqError Nat × List ReqEvent :=
  if h : attempt < maxRetries then
    match out attempt with
    | .timeout =>
      if attempt < maxRetries - 1 then
        let r := retryGo out base cap maxRetries (attempt + 1)
        (r.1, .req attempt :: .sleep (_calculate_backoff base cap attempt) :: r.2)
      else (.error .timeoutErr, [.req attempt])
    | .http s ra =>
      if 400 ≤ s ∧ s < 600 then
        if s = 429 then
          if attempt < maxRetries - 1 then
            let r := retryGo out base cap maxRetries (attempt + 1)
            (r.1, .req attempt :: .sleep ra :: r.2)
          else (.error (.httpErr 429), [.req attempt, .sleep ra])
        else if 500 ≤ s then
          if attempt < maxRetries - 1 then
            let r := retryGo out base cap maxRetries (attempt + 1)
            (r.1, .req attempt :: .sleep (_calculate_backoff base cap attempt) :: r.2)
          else (.error (.httpErr s), [.req attempt])
        else (.error (.httpErr s), [.req attempt])
      else (.ok attempt, [.req attempt])
  else (.error .requestExhausted, [])
termination_by maxRetries - attempt
decreasing_by all_goals omega

/-- `_retry_request` from api_client.py, over an oracle of per-attempt
outcomes. -/
def _retry_request (out : Nat → Outcome) (base cap maxRetries : Nat) :
    Except ReqError Nat × List ReqEvent :=
  retryGo out base cap maxRetries 0

end ApiClient

namespace DbWriter

open XmlParser

/-- The author-identity key of one parsed author mention. -/
def authorKey (a : Author) : AuthKey := (a.last_name, a.fore_name, a.orcid)

/-- The author id the SELECT of `_get_or_create_author` resolves a key to
over a given `authors` table (first matching row). -/
def findId (rows : List AuthorRow) (k : AuthKey) : Option Nat :=
  (rows.find? (keyMatch k)).map (fun r => r.author_id)

/-- Well-formedness of the record graph's own author list: pairwise distinct
composite keys and pairwise distinct positions. Exactly the record graphs
whose link inserts cannot conflict with each other. -/
def internalOk (p : Paper) : Prop :=
  (p.authors.map authorKey).Nodup ∧ (p.authors.map (fun a => a.position)).Nodup

instance : DecidablePred internalOk := fun p => by
  unfold internalOk; infer_instance

/-- The pmids present in the `papers` table. -/
def paperPmids (db : Db) : List Int := db.papers.map (fun r => r.pmid)

/-- Store-level invariants every real SQLite state satisfies (enforced by
the schema, per §6 of the spec): the `authors` surrogate keys are unique
and below the next rowid, and every `paper_authors` row references an
existing paper. -/
def wfDb (db : Db) : Prop :=
  (db.authors.map (fun r => r.author_id)).Nodup ∧
  (∀ r ∈ db.authors, r.author_id < db.next_author_id) ∧
  (∀ pa ∈ db.paper_authors, pa.pmid ∈ paperPmids db)

instance : DecidablePred wfDb := fun db => by
  unfold wfDb; infer_instance

lemma keyMatch_iff {k : AuthKey} {r : AuthorRow} :
    keyMatch k r = true ↔ r.last_name = k.1 ∧ r.fore_name = k.2.1 ∧ r.orcid = k.2.2 := by
  simp [keyMatch, and_assoc]

lemma findId_mem_of_eq_some {rows : List AuthorRow} {k : AuthKey} {i : Nat}
    (h : findId rows k = some i) :
    ∃ r ∈ rows, keyMatch k r = true ∧ r.author_id = i := by
  unfold findId at h
  cases hf : rows.find? (keyMatch k) with
  | none => rw [hf] at h; simp at h
  | some r =>
    rw [hf] at h
    simp at h
    exact ⟨r, List.mem_of_find?_eq_some hf, List.find?_some hf, h⟩

lemma findId_append_of_left {rows ext : List AuthorRow} {k : AuthKey} {i : Nat}
    (h : findId rows k = some i) : findId (rows ++ ext) k = some i := by
  unfold findId at *
  rw [List.find?_append]
  cases hf : rows.find? (keyMatch k) with
  | none => rw [hf] at h; simp at h
  | some r => rw [hf] at h; simpa using h

lemma findId_lt {rows : List AuthorRow} {k : AuthKey} {i next : Nat}
    (hlt : ∀ r ∈ rows, r.author_id < next) (h : findId rows k = some i) : i < next := by
  obtain ⟨r, hr, _, rfl⟩ := findId_mem_of_eq_some h
  exact hlt r hr

lemma findId_inj {rows : List AuthorRow} {k₁ k₂ : AuthKey} {i₁ i₂ : Nat}
    (hn : (rows.map (fun r => r.author_id)).Nodup)
    (h₁ : findId rows k₁ = some i₁) (h₂ : findId rows k₂ = some i₂)
    (hk : k₁ ≠ k₂) : i₁ ≠ i₂ := by
  obtain ⟨r₁, hm₁, hp₁, hi₁⟩ := findId_mem_of_eq_some h₁
  obtain ⟨r₂, hm₂, hp₂, hi₂⟩ := findId_mem_of_eq_some h₂
  rw [keyMatch_iff] at hp₁ hp₂
  intro hii
  have hr : r₁ = r₂ := List.inj_on_of_nodup_map hn hm₁ hm₂ (by rw [hi₁, hi₂, hii])
  apply hk
  have e₁ : k₁ = (r₁.last_name, r₁.fore_name, r₁.orcid) := by
    obtain ⟨a, b, c⟩ := hp₁; simp [a, b, c]
  have e₂ : k₂ = (r₂.last_name, r₂.fore_name, r₂.orcid) := by
    obtain ⟨a, b, c⟩ := hp₂; simp [a, b, c]
  rw [e₁, e₂, hr]

/-- `_get_or_create_author` when the key already resolves: first-write-wins
— the table is untouched and the existing id is returned. -/
lemma gca_found {db : Db} {last : String} {fore orc : Option String} {i : Nat}
    (ini : Option String) (h : findId db.authors (last, fore, orc) = some i) :
    _get_or_create_author db last fore ini orc = (i, db) := by
  unfold _get_or_create_author
  unfold findId at h
  cases hf : db.authors.find? (keyMatch (last, fore, orc)) with
  | none => rw [hf] at h; simp at h
  | some r => rw [hf] at h; simp at h; simp [h]

/-- `_get_or_create_author` on a miss: a fresh row is appended under the
next surrogate key. -/
lemma gca_miss {db : Db} {last : String} {fore orc : Option String}
    (ini : Option String) (h : findId db.authors (last, fore, orc) = none) :
    _get_or_create_author db last fore ini orc =
      (db.next_author_id,
       { db with
          authors := db.authors ++
            [{ author_id := db.next_author_id, last_name := last
               fore_name := fore, initials := ini, orcid := orc }]
          next_author_id := db.next_author_id + 1 }) := by
  unfold _get_or_create_author
  unfold findId at h
  cases hf : db.authors.find? (keyMatch (last, fore, orc)) with
  | none => simp
  | some r => rw [hf] at h; simp at h

end DbWriter

namespace DbWriter

open XmlParser

lemma findId_append_of_none {rows ext : List AuthorRow} {k : AuthKey}
    (h : findId rows k = none) : findId (rows ++ ext) k = findId ext k := by
  unfold findId at *
  rw [List.find?_append]
  cases hf : rows.find? (keyMatch k) with
  | none => simp
  | some r => rw [hf] at h; simp at h

/-- Loop invariant for `_insert_authors` on paper `pmid`: the author table
is well formed, and the `paper_authors` rows carrying `pmid` correspond
exactly to the already-processed keys `ks` and positions `ps`. -/
structure AuthInv (db : Db) (pmid : Int) (ks : List AuthKey) (ps : List Nat) : Prop where
  nodupIds : (db.authors.map (fun r => r.author_id)).Nodup
  idsLt : ∀ r ∈ db.authors, r.author_id < db.next_author_id
  rowKeys : ∀ pa ∈ db.paper_authors, pa.pmid = pmid →
      (∃ k ∈ ks, findId db.authors k = some pa.author_id) ∧ pa.author_position ∈ ps
  keysRow : ∀ k ∈ ks, ∃ pa ∈ db.paper_authors, pa.pmid = pmid ∧
      findId db.authors k = some pa.author_id
  posRow : ∀ q ∈ ps, ∃ pa ∈ db.paper_authors, pa.pmid = pmid ∧ pa.author_position = q


/-- One successful iteration of the `_insert_authors` loop: a fresh key and
a fresh position always insert (resolving or creating the author), and the
invariant advances. -/
lemma auth_step_ok {db : Db} {pmid : Int} {ks : List AuthKey} {ps : List Nat}
    (a : Author) (inv : AuthInv db pmid ks ps)
    (hk : authorKey a ∉ ks) (hp : a.position ∉ ps) :
    ∃ db',
      insertPaperAuthorRow (_get_or_create_author db a.last_name a.fore_name a.initials a.orcid).2
        { pmid := pmid
          author_id := (_get_or_create_author db a.last_name a.fore_name a.initials a.orcid).1
          author_position := a.position, affiliation := a.affiliation } = .ok db' ∧
      AuthInv db' pmid (ks ++ [authorKey a]) (ps ++ [a.position]) ∧
      db'.papers = db.papers ∧ db'.citations = db.citations ∧
      db'.fetch_log = db.fetch_log ∧
      db'.paper_open_access = db.paper_open_access ∧
      db'.paper_search_sources = db.paper_search_sources ∧
      (∃ ext, db'.authors = db.authors ++ ext) ∧
      db.next_author_id ≤ db'.next_author_id ∧
      (∃ nr, db'.paper_authors = db.paper_authors ++ nr ∧ ∀ x ∈ nr, x.pmid = pmid) := by
  cases hf : findId db.authors (authorKey a) with
  | some i =>
    have hgca := gca_found a.initials hf
    have hany₁ : db.paper_authors.any (fun r => r.pmid == pmid && r.author_id == i) = false := by
      rw [List.any_eq_false]
      rintro pa hpa hcl
      simp at hcl
      obtain ⟨hpm, hai⟩ := hcl
      obtain ⟨⟨k, hkk, hfk⟩, _⟩ := inv.rowKeys pa hpa hpm
      by_cases hkeq : k = authorKey a
      · exact hk (hkeq ▸ hkk)
      · exact findId_inj inv.nodupIds hfk hf hkeq (by rw [hai])
    have hany₂ : db.paper_authors.any
        (fun r => r.pmid == pmid && r.author_position == a.position) = false := by
      rw [List.any_eq_false]
      rintro pa hpa hcl
      simp at hcl
      exact hp (hcl.2 ▸ (inv.rowKeys pa hpa hcl.1).2)
    refine ⟨{ db with paper_authors := db.paper_authors ++
        [{ pmid := pmid, author_id := i, author_position := a.position,
           affiliation := a.affiliation }] }, ?_, ?_, rfl, rfl, rfl, rfl, rfl,
      ⟨[], by simp⟩, le_refl _, ⟨_, rfl, by simp⟩⟩
    · rw [hgca]
      simp only [insertPaperAuthorRow]
      rw [hany₁, hany₂]
      simp
    · constructor
      · exact inv.nodupIds
      · exact inv.idsLt
      · rintro pa hpa hpm
        simp only [List.mem_append, List.mem_singleton] at hpa
        rcases hpa with hpa | hpa
        · obtain ⟨⟨k, hkk, hfk⟩, hpos⟩ := inv.rowKeys pa hpa hpm
          exact ⟨⟨k, by simp [hkk], hfk⟩, by simp [hpos]⟩
        · subst hpa
          exact ⟨⟨authorKey a, by simp, hf⟩, by simp⟩
      · rintro k hkk
        simp only [List.mem_append, List.mem_singleton] at hkk
        rcases hkk with hkk | hkk
        · obtain ⟨pa, hpa, hpm, hfk⟩ := inv.keysRow k hkk
          exact ⟨pa, by simp [hpa], hpm, hfk⟩
        · subst hkk
          refine ⟨{ pmid := pmid, author_id := i, author_position := a.position,
                    affiliation := a.affiliation }, by simp, rfl, hf⟩
      · rintro q hq
        simp only [List.mem_append, List.mem_singleton] at hq
        rcases hq with hq | hq
        · obtain ⟨pa, hpa, hpm, hpos⟩ := inv.posRow q hq
          exact ⟨pa, by simp [hpa], hpm, hpos⟩
        · subst hq
          refine ⟨{ pmid := pmid, author_id := i, author_position := a.position,
                    affiliation := a.affiliation }, by simp, rfl, rfl⟩
  | none =>
    have hgca := gca_miss a.initials hf
    have hmatch : keyMatch (authorKey a)
        { author_id := db.next_author_id, last_name := a.last_name
          fore_name := a.fore_name, initials := a.initials, orcid := a.orcid } = true := by
      simp [keyMatch, authorKey]
    have hfind : findId (db.authors ++
        [{ author_id := db.next_author_id, last_name := a.last_name
           fore_name := a.fore_name, initials := a.initials, orcid := a.orcid }])
        (authorKey a) = some db.next_author_id := by
      rw [findId_append_of_none hf]
      unfold findId
      rw [List.find?_cons]
      simp [hmatch]
    have hany₁ : db.paper_authors.any
        (fun r => r.pmid == pmid && r.author_id == db.next_author_id) = false := by
      rw [List.any_eq_false]
      rintro pa hpa hcl
      simp at hcl
      obtain ⟨hpm, hai⟩ := hcl
      obtain ⟨⟨k, _, hfk⟩, _⟩ := inv.rowKeys pa hpa hpm
      have := findId_lt inv.idsLt hfk
      omega
    have hany₂ : db.paper_authors.any
        (fun r => r.pmid == pmid && r.author_position == a.position) = false := by
      rw [List.any_eq_false]
      rintro pa hpa hcl
      simp at hcl
      exact hp (hcl.2 ▸ (inv.rowKeys pa hpa hcl.1).2)
    refine ⟨{ db with
        authors := db.authors ++
          [{ author_id := db.next_author_id, last_name := a.last_name
             fore_name := a.fore_name, initials := a.initials, orcid := a.orcid }]
        next_author_id := db.next_author_id + 1
        paper_authors := db.paper_authors ++
          [{ pmid := pmid, author_id := db.next_author_id, author_position := a.position,
             affiliation := a.affiliation }] }, ?_, ?_, rfl, rfl, rfl, rfl, rfl,
      ⟨_, rfl⟩, by simp, ⟨_, rfl, by simp⟩⟩
    · rw [hgca]
      simp only [insertPaperAuthorRow]
      rw [hany₁, hany₂]
      simp
    · constructor
      · rw [List.map_append]
        apply List.Nodup.append inv.nodupIds (by simp)
        intro x hx hx'
        simp only [List.map_cons, List.map_nil, List.mem_singleton] at hx'
        subst hx'
        simp only [List.mem_map] at hx
        obtain ⟨r, hr, hrid⟩ := hx
        have := inv.idsLt r hr
        omega
      · rintro r hr
        simp only [List.mem_append, List.mem_singleton] at hr
        rcases hr with hr | hr
        · have := inv.idsLt r hr; simp only []; omega
        · subst hr; simp
      · rintro pa hpa hpm
        simp only [List.mem_append, List.mem_singleton] at hpa
        rcases hpa with hpa | hpa
        · obtain ⟨⟨k, hkk, hfk⟩, hpos⟩ := inv.rowKeys pa hpa hpm
          exact ⟨⟨k, by simp [hkk], findId_append_of_left hfk⟩, by simp [hpos]⟩
        · subst hpa
          exact ⟨⟨authorKey a, by simp, hfind⟩, by simp⟩
      · rintro k hkk
        simp only [List.mem_append, List.mem_singleton] at hkk
        rcases hkk with hkk | hkk
        · obtain ⟨pa, hpa, hpm, hfk⟩ := inv.keysRow k hkk
          exact ⟨pa, by simp [hpa], hpm, findId_append_of_left hfk⟩
        · subst hkk
          refine ⟨{ pmid := pmid, author_id := db.next_author_id,
                    author_position := a.position, affiliation := a.affiliation },
                  by simp, rfl, hfind⟩
      · rintro q hq
        simp only [List.mem_append, List.mem_singleton] at hq
        rcases hq with hq | hq
        · obtain ⟨pa, hpa, hpm, hpos⟩ := inv.posRow q hq
          exact ⟨pa, by simp [hpa], hpm, hpos⟩
        · subst hq
          refine ⟨{ pmid := pmid, author_id := db.next_author_id,
                    author_position := a.position, affiliation := a.affiliation },
                  by simp, rfl, rfl⟩

/-- One failing iteration of the `_insert_authors` loop: a repeated key or
a repeated position always raises a uniqueness violation. -/
lemma auth_step_err {db : Db} {pmid : Int} {ks : List AuthKey} {ps : List Nat}
    (a : Author) (inv : AuthInv db pmid ks ps)
    (h : authorKey a ∈ ks ∨ a.position ∈ ps) :
    ∃ e,
      insertPaperAuthorRow (_get_or_create_author db a.last_name a.fore_name a.initials a.orcid).2
        { pmid := pmid
          author_id := (_get_or_create_author db a.last_name a.fore_name a.initials a.orcid).1
          author_position := a.position, affiliation := a.affiliation } = .error e := by
  -- in both resolution branches the paper_authors table is unchanged
  have hpa2 : (_get_or_create_author db a.last_name a.fore_name a.initials a.orcid).2.paper_authors
      = db.paper_authors := by
    cases hf : findId db.authors (authorKey a) with
    | some i => rw [gca_found a.initials hf]
    | none => rw [gca_miss a.initials hf]
  rcases h with hk | hp
  · -- repeated key: it resolves to the id already linked to this paper
    obtain ⟨pa, hpa, hpm, hfk⟩ := inv.keysRow (authorKey a) hk
    have hgca := gca_found a.initials hfk
    rw [hgca]
    have hany₁ : db.paper_authors.any
        (fun r => r.pmid == pmid && r.author_id == pa.author_id) = true := by
      rw [List.any_eq_true]
      exact ⟨pa, hpa, by simp [hpm]⟩
    refine ⟨"UNIQUE constraint failed: paper_authors.pmid, paper_authors.author_id", ?_⟩
    simp only [insertPaperAuthorRow]
    rw [hany₁]
    simp
  · -- repeated position: the second conflict check fires (if the first
    -- did not already)
    obtain ⟨pa, hpa, hpm, hpos⟩ := inv.posRow a.position hp
    have hany₂ : ((_get_or_create_author db a.last_name a.fore_name a.initials
        a.orcid).2.paper_authors.any
        (fun r => r.pmid == pmid && r.author_position == a.position)) = true := by
      rw [hpa2, List.any_eq_true]
      exact ⟨pa, hpa, by simp [hpm, hpos]⟩
    simp only [insertPaperAuthorRow]
    split
    · exact ⟨_, rfl⟩
    · exact ⟨_, rfl⟩

/-- Freshness of a remaining author list w.r.t. processed keys/positions:
nothing collides with the processed part nor internally. -/
def freshOk (ks : List AuthKey) (ps : List Nat) (as : List Author) : Prop :=
  (∀ a ∈ as, authorKey a ∉ ks ∧ a.position ∉ ps) ∧
  (as.map authorKey).Nodup ∧ (as.map (fun a => a.position)).Nodup

/-- Success run of the `_insert_authors` loop under freshness. -/
lemma insert_authors_ok : ∀ (as : List Author) (db : Db) {pmid : Int}
    {ks : List AuthKey} {ps : List Nat},
    AuthInv db pmid ks ps → freshOk ks ps as →
    ∃ db', _insert_authors db pmid as = .ok db' ∧
      AuthInv db' pmid (ks ++ as.map authorKey) (ps ++ as.map (fun a => a.position)) ∧
      db'.papers = db.papers ∧ db'.citations = db.citations ∧
      db'.fetch_log = db.fetch_log ∧
      db'.paper_open_access = db.paper_open_access ∧
      db'.paper_search_sources = db.paper_search_sources ∧
      (∃ ext, db'.authors = db.authors ++ ext) ∧
      db.next_author_id ≤ db'.next_author_id ∧
      (∃ nr, db'.paper_authors = db.paper_authors ++ nr ∧ ∀ x ∈ nr, x.pmid = pmid) := by
  intro as
  induction as with
  | nil =>
    intro db pmid ks ps inv _
    exact ⟨db, rfl, by simpa using inv, rfl, rfl, rfl, rfl, rfl,
      ⟨[], by simp⟩, le_refl _, ⟨[], by simp⟩⟩
  | cons a rest ih =>
    intro db pmid ks ps inv hfresh
    obtain ⟨hall, hknd, hpnd⟩ := hfresh
    obtain ⟨hka, hpa⟩ := hall a (by simp)
    obtain ⟨db₂, hstep, inv₂, f1, f2, f3, f4, f5, ⟨ext, hext⟩, hnext, ⟨nr, hnr, hnrp⟩⟩ :=
      auth_step_ok a inv hka hpa
    have hfresh₂ : freshOk (ks ++ [authorKey a]) (ps ++ [a.position]) rest := by
      refine ⟨?_, ?_, ?_⟩
      · intro a' ha'
        obtain ⟨h1, h2⟩ := hall a' (by simp [ha'])
        constructor
        · simp only [List.mem_append, List.mem_singleton]
          rintro (hc | hc)
          · exact h1 hc
          · simp only [List.map_cons, List.nodup_cons] at hknd
            exact hknd.1 (hc ▸ List.mem_map_of_mem authorKey ha')
        · simp only [List.mem_append, List.mem_singleton]
          rintro (hc | hc)
          · exact h2 hc
          · simp only [List.map_cons, List.nodup_cons] at hpnd
            exact hpnd.1 (hc ▸ List.mem_map_of_mem _ ha')
      · simp only [List.map_cons, List.nodup_cons] at hknd
        exact hknd.2
      · simp only [List.map_cons, List.nodup_cons] at hpnd
        exact hpnd.2
    obtain ⟨db', hrun, inv', g1, g2, g3, g4, g5, ⟨ext', hext'⟩, hnext', ⟨nr', hnr', hnrp'⟩⟩ :=
      ih db₂ inv₂ hfresh₂
    refine ⟨db', ?_, ?_, by rw [g1, f1], by rw [g2, f2], by rw [g3, f3],
      by rw [g4, f4], by rw [g5, f5],
      ⟨ext ++ ext', by rw [hext', hext, List.append_assoc]⟩,
      le_trans hnext hnext',
      ⟨nr ++ nr', by rw [hnr', hnr, List.append_assoc], ?_⟩⟩
    · show _insert_authors db pmid (a :: rest) = .ok db'
      unfold _insert_authors
      rw [hstep]
      exact hrun
    · simpa using inv'
    · intro x hx
      rcases List.mem_append.mp hx with hx | hx
      · exact hnrp x hx
      · exact hnrp' x hx

/-- Failure run of the `_insert_authors` loop: when freshness is violated,
some iteration raises and the whole sequence errors. -/
lemma insert_authors_err : ∀ (as : List Author) (db : Db) {pmid : Int}
    {ks : List AuthKey} {ps : List Nat},
    AuthInv db pmid ks ps → ¬ freshOk ks ps as →
    ∃ e, _insert_authors db pmid as = .error e := by
  intro as
  induction as with
  | nil =>
    intro db pmid ks ps _ hbad
    exact absurd ⟨by simp, by simp, by simp⟩ hbad
  | cons a rest ih =>
    intro db pmid ks ps inv hbad
    by_cases hhd : authorKey a ∈ ks ∨ a.position ∈ ps
    · obtain ⟨e, he⟩ := auth_step_err a inv hhd
      refine ⟨e, ?_⟩
      unfold _insert_authors
      rw [he]
    · push_neg at hhd
      obtain ⟨hka, hpa⟩ := hhd
      obtain ⟨db₂, hstep, inv₂, _⟩ := auth_step_ok a inv hka hpa
      have hbad₂ : ¬ freshOk (ks ++ [authorKey a]) (ps ++ [a.position]) rest := by
        intro ⟨hall₂, hknd₂, hpnd₂⟩
        apply hbad
        refine ⟨?_, ?_, ?_⟩
        · intro a' ha'
          simp only [List.mem_cons] at ha'
          rcases ha' with rfl | ha'
          · exact ⟨hka, hpa⟩
          · obtain ⟨h1, h2⟩ := hall₂ a' ha'
            simp only [List.mem_append, List.mem_singleton, not_or] at h1 h2
            exact ⟨h1.1, h2.1⟩
        · simp only [List.map_cons, List.nodup_cons]
          refine ⟨?_, hknd₂⟩
          intro hc
          simp only [List.mem_map] at hc
          obtain ⟨a', ha', hae⟩ := hc
          obtain ⟨h1, _⟩ := hall₂ a' ha'
          simp only [List.mem_append, List.mem_singleton, not_or] at h1
          exact h1.2 hae
        · simp only [List.map_cons, List.nodup_cons]
          refine ⟨?_, hpnd₂⟩
          intro hc
          simp only [List.mem_map] at hc
          obtain ⟨a', ha', hae⟩ := hc
          obtain ⟨_, h2⟩ := hall₂ a' ha'
          simp only [List.mem_append, List.mem_singleton, not_or] at h2
          exact h2.2 hae
      obtain ⟨e, he⟩ := ih db₂ inv₂ hbad₂
      refine ⟨e, ?_⟩
      unfold _insert_authors
      rw [hstep]
      exact he

lemma insert_authors_frames : ∀ (as : List Author) (db db' : Db) (pmid : Int),
    _insert_authors db pmid as = .ok db' →
    db'.papers = db.papers ∧ db'.fetch_log = db.fetch_log ∧
    db'.citations = db.citations ∧ db'.paper_open_access = db.paper_open_access ∧
    db'.paper_search_sources = db.paper_search_sources := by
  intro as
  induction as with
  | nil =>
    intro db db' pmid h
    cases h
    exact ⟨rfl, rfl, rfl, rfl, rfl⟩
  | cons a rest ih =>
    intro db db' pmid h
    unfold _insert_authors at h
    cases hs : insertPaperAuthorRow
        (_get_or_create_author db a.last_name a.fore_name a.initials a.orcid).2
        { pmid := pmid
          author_id := (_get_or_create_author db a.last_name a.fore_name a.initials a.orcid).1
          author_position := a.position, affiliation := a.affiliation } with
    | error e => rw [hs] at h; cases h
    | ok db₂ =>
      rw [hs] at h
      have hrest := ih db₂ db' pmid h
      -- the one inserted link row leaves these five tables unchanged,
      -- in both resolution branches
      have hstep : db₂.papers = db.papers ∧ db₂.fetch_log = db.fetch_log ∧
          db₂.citations = db.citations ∧ db₂.paper_open_access = db.paper_open_access ∧
          db₂.paper_search_sources = db.paper_search_sources := by
        have hgf : (_get_or_create_author db a.last_name a.fore_name a.initials a.orcid).2.papers
              = db.papers ∧
            (_get_or_create_author db a.last_name a.fore_name a.initials a.orcid).2.fetch_log
              = db.fetch_log ∧
            (_get_or_create_author db a.last_name a.fore_name a.initials a.orcid).2.citations
              = db.citations ∧
            (_get_or_create_author db a.last_name a.fore_name a.initials a.orcid).2.paper_open_access
              = db.paper_open_access ∧
            (_get_or_create_author db a.last_name a.fore_name a.initials a.orcid).2.paper_search_sources
              = db.paper_search_sources := by
          unfold _get_or_create_author
          cases db.authors.find? (keyMatch (a.last_name, a.fore_name, a.orcid)) with
          | none => exact ⟨rfl, rfl, rfl, rfl, rfl⟩
          | some r => exact ⟨rfl, rfl, rfl, rfl, rfl⟩
        unfold insertPaperAuthorRow at hs
        split at hs
        · cases hs
        · split at hs
          · cases hs
          · cases hs
            exact hgf
      exact ⟨hstep.1 ▸ hrest.1, hstep.2.1 ▸ hrest.2.1, hstep.2.2.1 ▸ hrest.2.2.1,
        hstep.2.2.2.1 ▸ hrest.2.2.2.1, hstep.2.2.2.2 ▸ hrest.2.2.2.2⟩

lemma open_access_frames (db : Db) (m : Int) (oa : Option OpenAccess) :
    (_insert_open_access db m oa).papers = db.papers ∧
    (_insert_open_access db m oa).authors = db.authors ∧
    (_insert_open_access db m oa).paper_authors = db.paper_authors ∧
    (_insert_open_access db m oa).fetch_log = db.fetch_log ∧
    (_insert_open_access db m oa).next_author_id = db.next_author_id := by
  unfold _insert_open_access
  cases oa with
  | none => exact ⟨rfl, rfl, rfl, rfl, rfl⟩
  | some o =>
    dsimp only
    by_cases hc : (db.paper_open_access.any fun r => r.pmid == m) = true
    · rw [if_pos hc]
      exact ⟨rfl, rfl, rfl, rfl, rfl⟩
    · rw [if_neg hc]
      exact ⟨rfl, rfl, rfl, rfl, rfl⟩

lemma search_source_frames (db : Db) (m : Int) (src q : String) (ts : Nat) :
    (_insert_search_source db m src q ts).papers = db.papers ∧
    (_insert_search_source db m src q ts).authors = db.authors ∧
    (_insert_search_source db m src q ts).paper_authors = db.paper_authors ∧
    (_insert_search_source db m src q ts).fetch_log = db.fetch_log ∧
    (_insert_search_source db m src q ts).next_author_id = db.next_author_id := by
  unfold _insert_search_source
  by_cases hc : (db.paper_search_sources.any fun r => r.pmid == m && r.search_type == src) = true
  · rw [if_pos hc]
    exact ⟨rfl, rfl, rfl, rfl, rfl⟩
  · rw [if_neg hc]
    exact ⟨rfl, rfl, rfl, rfl, rfl⟩

lemma insert_paper_record_ok {db db' : Db} {p : Paper} {ts : Nat}
    (h : _insert_paper_record db p ts = .ok db') :
    db' = { db with papers := db.papers ++ [mkPaperRow p ts] } := by
  unfold _insert_paper_record at h
  split at h
  · cases h
  · cases h; rfl

/-- Whenever the insert sequence succeeds, exactly one paper row and exactly
one successful fetch-log row are appended (no hypotheses on the store). -/
lemma steps_ok_shape {db db' : Db} {p : Paper} {ts : Nat} {src q : String}
    (h : runInsertSteps db p ts src q = .ok db') :
    db'.papers = db.papers ++ [mkPaperRow p ts] ∧
    db'.fetch_log = db.fetch_log ++
      [{ pmid := p.pmid, fetch_attempt_date := ts, fetch_success := true, retry_count := 0 }] := by
  unfold runInsertSteps at h
  cases h1 : _insert_paper_record db p ts with
  | error e => rw [h1] at h; cases h
  | ok db₁ =>
    rw [h1] at h
    dsimp only at h
    have hdb₁ := insert_paper_record_ok h1
    cases h2 : _insert_authors db₁ p.pmid p.authors with
    | error e => rw [h2] at h; cases h
    | ok db₂ =>
      rw [h2] at h
      dsimp only at h
      obtain ⟨hp2, hf2, _, _, _⟩ := insert_authors_frames p.authors db₁ db₂ p.pmid h2
      cases h
      have hoa := open_access_frames (_insert_citations db₂ p.pmid p.citations) p.pmid p.open_access
      have hss := search_source_frames
        (_update_fetch_log (_insert_open_access (_insert_citations db₂ p.pmid p.citations)
          p.pmid p.open_access) p.pmid ts true) p.pmid src q ts
      constructor
      · rw [hss.1]
        show (_insert_open_access (_insert_citations db₂ p.pmid p.citations)
            p.pmid p.open_access).papers = _
        rw [hoa.1]
        show db₂.papers = _
        rw [hp2, hdb₁]
      · rw [hss.2.2.2.1]
        show (_insert_open_access (_insert_citations db₂ p.pmid p.citations)
            p.pmid p.open_access).fetch_log ++ _ = _
        rw [hoa.2.2.2.1]
        show db₂.fetch_log ++ _ = _
        rw [hf2, hdb₁]

/-- The initial loop invariant of `_insert_authors` for a fresh pmid over a
well-formed store, right after the paper row was inserted. -/
lemma authInv_init {db : Db} {p : Paper} {ts : Nat} (hwf : wfDb db)
    (hfresh : p.pmid ∉ paperPmids db) :
    AuthInv { db with papers := db.papers ++ [mkPaperRow p ts] } p.pmid [] [] := by
  obtain ⟨h1, h2, h3⟩ := hwf
  constructor
  · exact h1
  · exact h2
  · rintro pa hpa hpm
    exact absurd (hpm ▸ h3 pa hpa) hfresh
  · rintro k hk
    cases hk
  · rintro q hq
    cases hq

lemma freshOk_nil_iff {p : Paper} : freshOk [] [] p.authors ↔ internalOk p := by
  unfold freshOk internalOk
  simp

/-- An insert on a fresh pmid with an internally consistent author list
succeeds on a well-formed store, and the store stays well formed. -/
lemma steps_ok {db : Db} {p : Paper} (ts : Nat) (src q : String)
    (hwf : wfDb db) (hfresh : p.pmid ∉ paperPmids db) (hok : internalOk p) :
    ∃ db', runInsertSteps db p ts src q = .ok db' ∧ wfDb db' := by
  have hany : (db.papers.any fun r => r.pmid == p.pmid) = false := by
    rw [List.any_eq_false]
    intro r hr
    simp only [beq_iff_eq]
    intro heq
    exact hfresh (heq ▸ List.mem_map_of_mem (fun r => r.pmid) hr)
  have h1 : _insert_paper_record db p ts =
      .ok { db with papers := db.papers ++ [mkPaperRow p ts] } := by
    unfold _insert_paper_record
    rw [hany]
    simp
  obtain ⟨db₂, h2, inv₂, hp2, _, _, _, _, ⟨ext, hext⟩, hnext, ⟨nr, hnr, hnrp⟩⟩ :=
    insert_authors_ok p.authors { db with papers := db.papers ++ [mkPaperRow p ts] }
      (authInv_init hwf hfresh) (freshOk_nil_iff.mpr hok)
  refine ⟨_insert_search_source
      (_update_fetch_log
        (_insert_open_access (_insert_citations db₂ p.pmid p.citations) p.pmid p.open_access)
        p.pmid ts true) p.pmid src q ts, ?_, ?_⟩
  · unfold runInsertSteps
    rw [h1]
    dsimp only
    rw [h2]
  · -- the final store: authors/paper_authors state comes from the loop,
    -- the remaining steps only append to other tables
    have hoa := open_access_frames (_insert_citations db₂ p.pmid p.citations) p.pmid p.open_access
    have hss := search_source_frames
      (_update_fetch_log (_insert_open_access (_insert_citations db₂ p.pmid p.citations)
        p.pmid p.open_access) p.pmid ts true) p.pmid src q ts
    have ea : (_insert_search_source
        (_update_fetch_log
          (_insert_open_access (_insert_citations db₂ p.pmid p.citations) p.pmid p.open_access)
          p.pmid ts true) p.pmid src q ts).authors = db₂.authors := by
      rw [hss.2.1]
      simp only [_update_fetch_log]
      rw [hoa.2.1]
      simp only [_insert_citations]
    have en : (_insert_search_source
        (_update_fetch_log
          (_insert_open_access (_insert_citations db₂ p.pmid p.citations) p.pmid p.open_access)
          p.pmid ts true) p.pmid src q ts).next_author_id = db₂.next_author_id := by
      rw [hss.2.2.2.2]
      simp only [_update_fetch_log]
      rw [hoa.2.2.2.2]
      simp only [_insert_citations]
    have epa : (_insert_search_source
        (_update_fetch_log
          (_insert_open_access (_insert_citations db₂ p.pmid p.citations) p.pmid p.open_access)
          p.pmid ts true) p.pmid src q ts).paper_authors = db₂.paper_authors := by
      rw [hss.2.2.1]
      simp only [_update_fetch_log]
      rw [hoa.2.2.1]
      simp only [_insert_citations]
    have epp : (_insert_search_source
        (_update_fetch_log
          (_insert_open_access (_insert_citations db₂ p.pmid p.citations) p.pmid p.open_access)
          p.pmid ts true) p.pmid src q ts).papers = db₂.papers := by
      rw [hss.1]
      simp only [_update_fetch_log]
      rw [hoa.1]
      simp only [_insert_citations]
    refine ⟨?_, ?_, ?_⟩
    · rw [ea]
      exact inv₂.nodupIds
    · intro r hr
      rw [ea] at hr
      rw [en]
      exact inv₂.idsLt r hr
    · intro pa hpa
      rw [epa, hnr] at hpa
      unfold paperPmids
      rw [epp, hp2]
      simp only [List.map_append]
      rcases List.mem_append.mp hpa with hpa | hpa
      · exact List.mem_append.mpr (Or.inl (hwf.2.2 pa hpa))
      · refine List.mem_append.mpr (Or.inr ?_)
        simp [hnrp pa hpa, mkPaperRow]

/-- An insert on an already-present pmid fails on the very first statement. -/
lemma steps_err_stale {db : Db} {p : Paper} {ts : Nat} {src q : String}
    (h : p.pmid ∈ paperPmids db) :
    runInsertSteps db p ts src q = .error "UNIQUE constraint failed: papers.pmid" := by
  have hany : (db.papers.any fun r => r.pmid == p.pmid) = true := by
    rw [List.any_eq_true]
    obtain ⟨r, hr, hre⟩ := List.mem_map.mp h
    exact ⟨r, hr, by simp [hre]⟩
  unfold runInsertSteps _insert_paper_record
  rw [hany]
  simp

/-- An insert whose author list repeats a composite key or a position fails
during the author loop on a well-formed store. -/
lemma steps_err_dup {db : Db} {p : Paper} {ts : Nat} {src q : String}
    (hwf : wfDb db) (hfresh : p.pmid ∉ paperPmids db) (hbad : ¬ internalOk p) :
    ∃ e, runInsertSteps db p ts src q = .error e := by
  have hany : (db.papers.any fun r => r.pmid == p.pmid) = false := by
    rw [List.any_eq_false]
    intro r hr
    simp only [beq_iff_eq]
    intro heq
    exact hfresh (heq ▸ List.mem_map_of_mem (fun r => r.pmid) hr)
  have h1 : _insert_paper_record db p ts =
      .ok { db with papers := db.papers ++ [mkPaperRow p ts] } := by
    unfold _insert_paper_record
    rw [hany]
    simp
  obtain ⟨e, h2⟩ := insert_authors_err p.authors
    { db with papers := db.papers ++ [mkPaperRow p ts] }
    (authInv_init hwf hfresh) (fun hf => hbad (freshOk_nil_iff.mp hf))
  refine ⟨e, ?_⟩
  unfold runInsertSteps
  rw [h1]
  dsimp only
  rw [h2]

/-- On a well-formed store, `insert_paper` returns `True` exactly when the
pmid is not yet in the papers table and the record graph's author list is
internally consistent. -/
lemma insert_paper_true_iff {db : Db} {flog : List FailEntry} {p : Paper}
    {ts : Nat} {src q : String} (hwf : wfDb db) :
    (insert_paper db flog p ts src q).1 = true ↔
      p.pmid ∉ paperPmids db ∧ internalOk p := by
  constructor
  · intro h
    by_cases hfresh : p.pmid ∈ paperPmids db
    · rw [insert_paper, steps_err_stale hfresh] at h
      cases h
    · by_cases hok : internalOk p
      · exact ⟨hfresh, hok⟩
      · obtain ⟨e, he⟩ := steps_err_dup hwf hfresh hok
        rw [insert_paper, he] at h
        cases h
  · rintro ⟨hfresh, hok⟩
    obtain ⟨db', h, _⟩ := steps_ok ts src q hwf hfresh hok
    rw [insert_paper, h]

/-- A successful `insert_paper` preserves store well-formedness. -/
lemma insert_paper_wf {db : Db} {flog : List FailEntry} {p : Paper}
    {ts : Nat} {src q : String} (hwf : wfDb db)
    (h : (insert_paper db flog p ts src q).1 = true) :
    wfDb (insert_paper db flog p ts src q).2.1 := by
  obtain ⟨hfresh, hok⟩ := (insert_paper_true_iff hwf).mp h
  obtain ⟨db', hrun, hwf'⟩ := steps_ok ts src q hwf hfresh hok
  rw [insert_paper, hrun]
  exact hwf'

/-- A failed `insert_paper` rolls back: the store is exactly the pre-call
store, and one failure line is appended to the external log. -/
lemma insert_paper_false_shape {db : Db} {flog : List FailEntry} {p : Paper}
    {ts : Nat} {src q : String} {e : String}
    (h : runInsertSteps db p ts src q = .error e) :
    insert_paper db flog p ts src q =
      (false, db, flog ++ [{ ts := ts, pmid := p.pmid, msg := e }]) := by
  rw [insert_paper, h]

lemma get_fetched_mem {db : Db} {m : Int} :
    m ∈ get_fetched_pmids db ↔
      ∃ r ∈ db.fetch_log, r.fetch_success = true ∧ r.pmid = m := by
  unfold get_fetched_pmids
  rw [List.mem_dedup, List.mem_map]
  constructor
  · rintro ⟨r, hr, rfl⟩
    rw [List.mem_filter] at hr
    exact ⟨r, hr.1, by simpa using hr.2, rfl⟩
  · rintro ⟨r, hr, hs, rfl⟩
    exact ⟨r, List.mem_filter.mpr ⟨hr, by simpa using hs⟩, rfl⟩

/-- Membership in the processed set after appending one successful
fetch-log row. -/
lemma get_fetched_after_success {db db' : Db} {m : Int} {ts : Nat}
    (h : db'.fetch_log = db.fetch_log ++
      [{ pmid := m, fetch_attempt_date := ts, fetch_success := true, retry_count := 0 }]) :
    ∀ m', m' ∈ get_fetched_pmids db' ↔ m' ∈ get_fetched_pmids db ∨ m' = m := by
  intro m'
  rw [get_fetched_mem, get_fetched_mem, h]
  constructor
  · rintro ⟨r, hr, hs, rfl⟩
    rcases List.mem_append.mp hr with hr | hr
    · exact Or.inl ⟨r, hr, hs, rfl⟩
    · simp only [List.mem_singleton] at hr
      subst hr
      exact Or.inr rfl
  · rintro (⟨r, hr, hs, rfl⟩ | rfl)
    · exact ⟨r, List.mem_append.mpr (Or.inl hr), hs, rfl⟩
    · exact ⟨{ pmid := m', fetch_attempt_date := ts, fetch_success := true, retry_count := 0 },
        List.mem_append.mpr (Or.inr (by simp)), rfl, rfl⟩

/-- Components of a successful `insert_paper` call: one paper row and one
successful fetch-log row appended, external failure log untouched. -/
lemma insert_paper_true_shape {db : Db} {flog : List FailEntry} {p : Paper}
    {ts : Nat} {src q : String}
    (h : (insert_paper db flog p ts src q).1 = true) :
    (insert_paper db flog p ts src q).2.1.papers = db.papers ++ [mkPaperRow p ts] ∧
    (insert_paper db flog p ts src q).2.1.fetch_log = db.fetch_log ++
      [{ pmid := p.pmid, fetch_attempt_date := ts, fetch_success := true, retry_count := 0 }] ∧
    (insert_paper db flog p ts src q).2.2 = flog := by
  cases hrun : runInsertSteps db p ts src q with
  | error e => rw [insert_paper, hrun] at h ⊢; cases h
  | ok db' =>
    rw [insert_paper, hrun]
    obtain ⟨h1, h2⟩ := steps_ok_shape hrun
    exact ⟨h1, h2, rfl⟩

/-- Components of a failed `insert_paper` call: rollback leaves the store
untouched; one line is appended to the external failure log. -/
lemma insert_paper_false_shape' {db : Db} {flog : List FailEntry} {p : Paper}
    {ts : Nat} {src q : String}
    (h : (insert_paper db flog p ts src q).1 = false) :
    (insert_paper db flog p ts src q).2.1 = db ∧
    ∃ e, (insert_paper db flog p ts src q).2.2 =
      flog ++ [{ ts := ts, pmid := p.pmid, msg := e }] := by
  cases hrun : runInsertSteps db p ts src q with
  | error e => rw [insert_paper, hrun]; exact ⟨rfl, e, rfl⟩
  | ok db' => rw [insert_paper, hrun] at h; cases h

end DbWriter

namespace Pipeline

open XmlParser DbWriter

/-- All record graphs surfaced by the run's pages, in processing order. -/
def allPapers (batches : List (Option (List Paper))) : List Paper :=
  (batches.map (fun b => b.getD [])).join

/-- Saturation of a store w.r.t. a page list: every surfaced record is
already processed, already present as a paper row, or internally broken. -/
def sat (db : Db) (batches : List (Option (List Paper))) : Prop :=
  ∀ p ∈ allPapers batches, p.pmid ∈ get_fetched_pmids db ∨
    p.pmid ∈ paperPmids db ∨ ¬ internalOk p

/-- Run-1 loop invariant: the store stays well formed, the in-memory
processed set under-approximates the durable one, and every successful
attempt so far is durably recorded. -/
structure Inv1 (st : PipeState) : Prop where
  wf : wfDb st.db
  sub : ∀ m ∈ st.fetched, m ∈ get_fetched_pmids st.db
  att : ∀ ab ∈ st.attempts, ab.2 = true → ab.1 ∈ get_fetched_pmids st.db

/-- A processed record is settled w.r.t. a store. -/
def done (db : Db) (p : Paper) : Prop :=
  p.pmid ∈ get_fetched_pmids db ∨ p.pmid ∈ paperPmids db ∨ ¬ internalOk p

lemma processPaper_step {ts : Nat} {src q : String} (st : PipeState) (p : Paper)
    (hinv : Inv1 st) :
    Inv1 (processPaper ts src q st p) ∧
    (∀ m ∈ get_fetched_pmids st.db,
        m ∈ get_fetched_pmids (processPaper ts src q st p).db) ∧
    (∀ m ∈ paperPmids st.db, m ∈ paperPmids (processPaper ts src q st p).db) ∧
    done (processPaper ts src q st p).db p ∧
    (∃ na, (processPaper ts src q st p).attempts = st.attempts ++ na) := by
  unfold processPaper
  by_cases hc : st.fetched.contains p.pmid
  · rw [if_pos hc]
    refine ⟨⟨hinv.wf, hinv.sub, hinv.att⟩, fun m hm => hm, fun m hm => hm, ?_, [], by simp⟩
    exact Or.inl (hinv.sub p.pmid (List.elem_iff.mp hc))
  · rw [if_neg hc]
    by_cases hr : (insert_paper st.db st.flog p ts src q).1 = true
    · rw [if_pos hr]
      obtain ⟨hpap, hlog, _⟩ := insert_paper_true_shape hr
      have hmem := get_fetched_after_success hlog
      refine ⟨⟨insert_paper_wf hinv.wf hr, ?_, ?_⟩, ?_, ?_, ?_, [(p.pmid, true)], rfl⟩
      · rintro m hm
        simp only [List.mem_append, List.mem_singleton] at hm
        rcases hm with hm | rfl
        · exact (hmem m).mpr (Or.inl (hinv.sub m hm))
        · exact (hmem p.pmid).mpr (Or.inr rfl)
      · rintro ab hab htrue
        simp only [List.mem_append, List.mem_singleton] at hab
        rcases hab with hab | rfl
        · exact (hmem ab.1).mpr (Or.inl (hinv.att ab hab htrue))
        · exact (hmem p.pmid).mpr (Or.inr rfl)
      · exact fun m hm => (hmem m).mpr (Or.inl hm)
      · intro m hm
        unfold paperPmids
        rw [hpap]
        simp only [List.map_append, List.mem_append]
        exact Or.inl hm
      · exact Or.inl ((hmem p.pmid).mpr (Or.inr rfl))
    · rw [if_neg hr]
      have hr' : (insert_paper st.db st.flog p ts src q).1 = false :=
        Bool.not_eq_true _ ▸ (by simpa using hr)
      obtain ⟨hdb, _⟩ := insert_paper_false_shape' hr'
      have hfail : ¬(p.pmid ∉ paperPmids st.db ∧ internalOk p) := by
        intro hcl
        exact hr ((insert_paper_true_iff hinv.wf).mpr hcl)
      refine ⟨⟨?_, ?_, ?_⟩, ?_, ?_, ?_, [(p.pmid, false)], rfl⟩
      · rw [hdb]; exact hinv.wf
      · rw [hdb]; exact hinv.sub
      · rintro ab hab htrue
        simp only [List.mem_append, List.mem_singleton] at hab
        rcases hab with hab | rfl
        · rw [hdb]; exact hinv.att ab hab htrue
        · cases htrue
      · rw [hdb]; exact fun m hm => hm
      · rw [hdb]; exact fun m hm => hm
      · rw [hdb]
        rcases Classical.em (p.pmid ∈ paperPmids st.db) with hm | hm
        · exact Or.inr (Or.inl hm)
        · rcases Classical.em (internalOk p) with ho | ho
          · exact absurd ⟨hm, ho⟩ hfail
          · exact Or.inr (Or.inr ho)

lemma foldl_process_inv {ts : Nat} {src q : String} :
    ∀ (ps : List Paper) (st : PipeState), Inv1 st →
    Inv1 (ps.foldl (processPaper ts src q) st) ∧
    (∀ m ∈ get_fetched_pmids st.db,
        m ∈ get_fetched_pmids (ps.foldl (processPaper ts src q) st).db) ∧
    (∀ m ∈ paperPmids st.db,
        m ∈ paperPmids (ps.foldl (processPaper ts src q) st).db) ∧
    (∀ p ∈ ps, done (ps.foldl (processPaper ts src q) st).db p) ∧
    (∃ na, (ps.foldl (processPaper ts src q) st).attempts = st.attempts ++ na) := by
  intro ps
  induction ps with
  | nil =>
    intro st hinv
    exact ⟨hinv, fun m hm => hm, fun m hm => hm, by simp, [], by simp⟩
  | cons p rest ih =>
    intro st hinv
    obtain ⟨hinv₁, hge₁, hpa₁, hdone₁, na₁, hat₁⟩ := processPaper_step st p hinv
    obtain ⟨hinv', hge', hpa', hdone', na', hat'⟩ := ih _ hinv₁
    refine ⟨hinv', fun m hm => hge' m (hge₁ m hm), fun m hm => hpa' m (hpa₁ m hm),
      ?_, na₁ ++ na', by rw [List.foldl_cons, hat', hat₁, List.append_assoc]⟩
    intro p' hp'
    simp only [List.mem_cons] at hp'
    rcases hp' with rfl | hp'
    · rcases hdone₁ with h | h | h
      · exact Or.inl (hge' _ h)
      · exact Or.inr (Or.inl (hpa' _ h))
      · exact Or.inr (Or.inr h)
    · exact hdone' p' hp'

lemma foldl_batches_inv {ts : Nat} {src q : String} :
    ∀ (batches : List (Option (List Paper))) (st : PipeState), Inv1 st →
    Inv1 (batches.foldl (processBatch ts src q) st) ∧
    (∀ m ∈ get_fetched_pmids st.db,
        m ∈ get_fetched_pmids (batches.foldl (processBatch ts src q) st).db) ∧
    (∀ m ∈ paperPmids st.db,
        m ∈ paperPmids (batches.foldl (processBatch ts src q) st).db) ∧
    (∀ p ∈ allPapers batches, done (batches.foldl (processBatch ts src q) st).db p) ∧
    (∃ na, (batches.foldl (processBatch ts src q) st).attempts = st.attempts ++ na) := by
  intro batches
  induction batches with
  | nil =>
    intro st hinv
    exact ⟨hinv, fun m hm => hm, fun m hm => hm, by simp [allPapers], [], by simp⟩
  | cons b rest ih =>
    intro st hinv
    obtain ⟨hinv₁, hge₁, hpa₁, hdone₁, na₁, hat₁⟩ :=
      foldl_process_inv (b.getD []) st hinv
    obtain ⟨hinv', hge', hpa', hdone', na', hat'⟩ := ih _ hinv₁
    refine ⟨hinv', fun m hm => hge' m (hge₁ m hm), fun m hm => hpa' m (hpa₁ m hm),
      ?_, na₁ ++ na', ?_⟩
    · intro p hp
      unfold allPapers at hp
      simp only [List.map_cons, List.join_cons, List.mem_append] at hp
      rcases hp with hp | hp
      · rcases hdone₁ p hp with h | h | h
        · exact Or.inl (hge' _ h)
        · exact Or.inr (Or.inl (hpa' _ h))
        · exact Or.inr (Or.inr h)
      · exact hdone' p (by simpa [allPapers] using hp)
    · rw [List.foldl_cons]
      show (List.foldl (processBatch ts src q)
          (List.foldl (processPaper ts src q) st (b.getD [])) rest).attempts = _
      rw [hat', hat₁, List.append_assoc]

end Pipeline

namespace Pipeline

open XmlParser DbWriter

/-- Run-2 loop invariant over a saturated store `db`: nothing changes, no
insert succeeds, and every attempt concerns an unprocessed pmid. -/
structure Inv2 (db : Db) (st : PipeState) : Prop where
  dbEq : st.db = db
  fet : st.fetched = get_fetched_pmids db
  ins : st.inserted = 0
  att : ∀ ab ∈ st.attempts, ab.1 ∉ get_fetched_pmids db

lemma processPaper_noop {ts : Nat} {src q : String} {db : Db} (st : PipeState)
    (p : Paper) (hwf : wfDb db) (hdone : done db p) (hinv : Inv2 db st) :
    Inv2 db (processPaper ts src q st p) := by
  unfold processPaper
  by_cases hc : st.fetched.contains p.pmid
  · rw [if_pos hc]
    exact ⟨hinv.dbEq, hinv.fet, hinv.ins, hinv.att⟩
  · rw [if_neg hc]
    have hnot : p.pmid ∉ get_fetched_pmids db := by
      intro hmem
      exact hc (List.elem_iff.mpr (hinv.fet ▸ hmem))
    have hfalse : (insert_paper st.db st.flog p ts src q).1 = false := by
      rw [hinv.dbEq]
      cases hb : (insert_paper db st.flog p ts src q).1 with
      | false => rfl
      | true =>
        obtain ⟨hfresh, hok⟩ := (insert_paper_true_iff hwf).mp hb
        rcases hdone with h | h | h
        · exact absurd h hnot
        · exact absurd h hfresh
        · exact absurd hok h
    rw [if_neg (by simp [hfalse])]
    have hdbeq : (insert_paper st.db st.flog p ts src q).2.1 = st.db :=
      (insert_paper_false_shape' (by rw [hinv.dbEq] at hfalse ⊢; exact hfalse)).1
    refine ⟨by rw [hdbeq, hinv.dbEq], hinv.fet, hinv.ins, ?_⟩
    rintro ab hab
    simp only [List.mem_append, List.mem_singleton] at hab
    rcases hab with hab | rfl
    · exact hinv.att ab hab
    · exact hnot

lemma foldl_process_noop {ts : Nat} {src q : String} {db : Db} :
    ∀ (ps : List Paper) (st : PipeState), wfDb db → (∀ p ∈ ps, done db p) →
    Inv2 db st → Inv2 db (ps.foldl (processPaper ts src q) st) := by
  intro ps
  induction ps with
  | nil => exact fun st _ _ h => h
  | cons p rest ih =>
    intro st hwf hdone hinv
    exact ih _ hwf (fun p' hp' => hdone p' (by simp [hp']))
      (processPaper_noop st p hwf (hdone p (by simp)) hinv)

lemma foldl_batches_noop (ts : Nat) (src q : String) {db : Db} :
    ∀ (batches : List (Option (List Paper))) (st : PipeState), wfDb db →
    sat db batches → Inv2 db st →
    Inv2 db (batches.foldl (processBatch ts src q) st) := by
  intro batches
  induction batches with
  | nil => exact fun st _ _ h => h
  | cons b rest ih =>
    intro st hwf hsat hinv
    refine ih _ hwf ?_ ?_
    · intro p hp
      exact hsat p (by simp only [allPapers, List.map_cons, List.flatten_cons,
        List.mem_append]; exact Or.inr (by simpa [allPapers] using hp))
    · exact foldl_process_noop (b.getD []) st hwf
        (fun p hp => hsat p (by simp only [allPapers, List.map_cons,
          List.flatten_cons, List.mem_append]; exact Or.inl hp)) hinv

end Pipeline

namespace Pipeline

open XmlParser DbWriter

lemma run_eq (batches : List (Option (List Paper))) (total : Nat) (db : Db)
    (flog : List FailEntry) (ts : Nat) (src q : String) :
    run batches total db flog ts src q =
      if total = (get_fetched_pmids db).length then
        ⟨db, flog, get_fetched_pmids db, 0, 0, 0, []⟩
      else
        batches.foldl (processBatch ts src q)
          ⟨db, flog, get_fetched_pmids db, 0, 0, 0, []⟩ := rfl

end Pipeline

namespace Pipeline

open XmlParser DbWriter

/-- Run 1 from a well-formed store: the final state is well formed, every
record surfaced by the pages is settled in the final store, and every
successful attempt is durably recorded. -/
lemma run_post (batches : List (Option (List Paper))) (total : Nat) (db0 : Db)
    (flog0 : List FailEntry) (ts : Nat) (src q : String) (hwf : wfDb db0) :
    wfDb (run batches total db0 flog0 ts src q).db ∧
    ((total = (get_fetched_pmids db0).length ∧
        (run batches total db0 flog0 ts src q).db = db0 ∧
        (run batches total db0 flog0 ts src q).attempts = []) ∨
      sat (run batches total db0 flog0 ts src q).db batches) ∧
    (∀ ab ∈ (run batches total db0 flog0 ts src q).attempts, ab.2 = true →
      ab.1 ∈ get_fetched_pmids (run batches total db0 flog0 ts src q).db) := by
  rw [run_eq]
  by_cases hc : total = (get_fetched_pmids db0).length
  · rw [if_pos hc]
    exact ⟨hwf, Or.inl ⟨hc, rfl, rfl⟩, by rintro ab hab; cases hab⟩
  · rw [if_neg hc]
    have hinv0 : Inv1 ⟨db0, flog0, get_fetched_pmids db0, 0, 0, 0, []⟩ :=
      ⟨hwf, fun m hm => hm, by rintro ab hab; cases hab⟩
    obtain ⟨hinv', _, _, hdone', _⟩ := foldl_batches_inv batches _ hinv0
    exact ⟨hinv'.wf, Or.inr hdone', hinv'.att⟩

end Pipeline

namespace Pipeline

open XmlParser DbWriter

/-- Per-pmid success accounting: at most one successful insert per run, and
a recorded success means the pmid is in the in-memory processed set. -/
structure Inv3 (m : Int) (st : PipeState) : Prop where
  cnt : st.attempts.countP (fun ab => ab.1 == m && ab.2) ≤ 1
  mem : (m, true) ∈ st.attempts → m ∈ st.fetched

lemma processPaper_succ_count {ts : Nat} {src q : String} {m : Int}
    (st : PipeState) (p : Paper) (hinv : Inv3 m st) :
    Inv3 m (processPaper ts src q st p) := by
  unfold processPaper
  by_cases hc : st.fetched.contains p.pmid
  · rw [if_pos hc]
    exact ⟨hinv.cnt, hinv.mem⟩
  · rw [if_neg hc]
    by_cases hr : (insert_paper st.db st.flog p ts src q).1 = true
    · rw [if_pos hr]
      constructor
      · show (st.attempts ++ [(p.pmid, true)]).countP _ ≤ 1
        rw [List.countP_append]
        by_cases hpm : p.pmid = m
        · subst hpm
          have h0 : st.attempts.countP (fun ab => ab.1 == p.pmid && ab.2) = 0 := by
            by_contra hne
            have hpos : 0 < st.attempts.countP (fun ab => ab.1 == p.pmid && ab.2) :=
              Nat.pos_of_ne_zero hne
            obtain ⟨ab, hab, habp⟩ := List.countP_pos.mp hpos
            have : ab = (p.pmid, true) := by
              simp only [Bool.and_eq_true, beq_iff_eq] at habp
              cases ab
              simp_all
            subst this
            exact hc (List.elem_iff.mpr (hinv.mem hab))
          rw [h0]
          simp
        · have h1 : ([(p.pmid, true)]).countP (fun ab => ab.1 == m && ab.2) = 0 := by
            simp [hpm]
          rw [h1]
          simpa using hinv.cnt
      · intro hmem
        simp only [List.mem_append, List.mem_singleton] at hmem
        rcases hmem with hmem | heq
        · exact List.mem_append.mpr (Or.inl (hinv.mem hmem))
        · have hm : m = p.pmid := congrArg Prod.fst heq
          exact List.mem_append.mpr (Or.inr (by simp [hm]))
    · rw [if_neg hr]
      constructor
      · show (st.attempts ++ [(p.pmid, false)]).countP _ ≤ 1
        rw [List.countP_append]
        have h1 : ([(p.pmid, false)]).countP (fun ab => ab.1 == m && ab.2) = 0 := by simp
        rw [h1]
        simpa using hinv.cnt
      · intro hmem
        simp only [List.mem_append, List.mem_singleton] at hmem
        rcases hmem with hmem | heq
        · exact hinv.mem hmem
        · cases heq

lemma foldl_succ_count {ts : Nat} {src q : String} {m : Int} :
    ∀ (ps : List Paper) (st : PipeState), Inv3 m st →
    Inv3 m (ps.foldl (processPaper ts src q) st) := by
  intro ps
  induction ps with
  | nil => exact fun st h => h
  | cons p rest ih =>
    intro st hinv
    exact ih _ (processPaper_succ_count st p hinv)

lemma foldl_batches_succ_count {ts : Nat} {src q : String} {m : Int} :
    ∀ (batches : List (Option (List Paper))) (st : PipeState), Inv3 m st →
    Inv3 m (batches.foldl (processBatch ts src q) st) := by
  intro batches
  induction batches with
  | nil => exact fun st h => h
  | cons b rest ih =>
    intro st hinv
    exact ih _ (foldl_succ_count (b.getD []) st hinv)

end Pipeline

namespace DbWriter

open XmlParser

/-- A sequence of loader calls against a store: each element is the record
graph and the call's timestamp; returns the final store and the list of
(pmid, returned flag) per call, in order. This is how every store state
reachable through the loader arises. -/
def loadTrace (src q : String) : Db → List (Paper × Nat) → Db × List (Int × Bool)
  | db, [] => (db, [])
  | db, pt :: rest =>
    ((loadTrace src q (insert_paper db [] pt.1 pt.2 src q).2.1 rest).1,
     (pt.1.pmid, (insert_paper db [] pt.1 pt.2 src q).1) ::
       (loadTrace src q (insert_paper db [] pt.1 pt.2 src q).2.1 rest).2)

lemma loadTrace_fetched (src q : String) :
    ∀ (tr : List (Paper × Nat)) (db : Db) (m : Int),
    m ∈ get_fetched_pmids (loadTrace src q db tr).1 ↔
      m ∈ get_fetched_pmids db ∨ (m, true) ∈ (loadTrace src q db tr).2 := by
  intro tr
  induction tr with
  | nil =>
    intro db m
    simp [loadTrace]
  | cons pt rest ih =>
    intro db m
    unfold loadTrace
    cases hr : (insert_paper db [] pt.1 pt.2 src q).1 with
    | true =>
      obtain ⟨_, hlog, _⟩ := insert_paper_true_shape hr
      have hmem := get_fetched_after_success hlog
      rw [ih]
      simp only [List.mem_cons, hr]
      rw [hmem m]
      constructor
      · rintro ((hm | rfl) | hm)
        · exact Or.inl hm
        · exact Or.inr (Or.inl rfl)
        · exact Or.inr (Or.inr hm)
      · rintro (hm | (heq | hm))
        · exact Or.inl (Or.inl hm)
        · have : m = pt.1.pmid := congrArg Prod.fst heq
          exact Or.inl (Or.inr this)
        · exact Or.inr hm
    | false =>
      obtain ⟨hdb, _⟩ := insert_paper_false_shape'
        (by rw [hr] : (insert_paper db [] pt.1 pt.2 src q).1 = false)
      rw [ih, hdb]
      simp only [List.mem_cons, hr]
      constructor
      · rintro (hm | hm)
        · exact Or.inl hm
        · exact Or.inr (Or.inr hm)
      · rintro (hm | (heq | hm))
        · exact Or.inl hm
        · cases (congrArg Prod.snd heq : true = false)
        · exact Or.inr hm

lemma get_fetched_empty (m : Int) : m ∈ get_fetched_pmids emptyDb ↔ False := by
  simp [get_fetched_pmids, emptyDb]

end DbWriter

namespace XmlParser

/-- All `int()` sites of the publication date parse (Year, Day texts). -/
def dateOk (pd : Option PubDateElem) : Bool :=
  match pd with
  | none => true
  | some pd =>
    (!truthy pd.yearText || (pyInt (pd.yearText.getD "")).isSome) &&
    (!truthy pd.dayText || (pyInt (pd.dayText.getD "")).isSome)

/-- All `int()` sites of the reference extraction (cited-pmid texts). -/
def refsOk (rl : Option (List RefElem)) : Bool :=
  match rl with
  | none => true
  | some l =>
    l.all (fun r => r.articleIds.all (fun idp =>
      !(idp.1 == some "pubmed") || !truthy idp.2 || (pyInt (idp.2.getD "")).isSome))

/-- A document with PMID and title present and well-formed, whose integer
text fields all parse (so `parse_paper` yields a record graph). -/
def wellFormedDoc (a : Article) : Bool :=
  truthy a.pmidText && (pyInt (a.pmidText.getD "")).isSome &&
  truthy a.titleText && dateOk a.pubDate && refsOk a.referenceList

/-- A document missing (or empty in) its PMID or title element — the
skip-with-diagnostic case of `parse_paper`; a missing title is only reached
after the PMID parses. -/
def missingRequired (a : Article) : Bool :=
  !truthy a.pmidText ||
  (truthy a.pmidText && (pyInt (a.pmidText.getD "")).isSome && !truthy a.titleText)

lemma optIntText_ok {o : Option String}
    (h : (!truthy o || (pyInt (o.getD "")).isSome) = true) :
    ∃ v, optIntText o = .ok v := by
  cases o with
  | none => exact ⟨none, rfl⟩
  | some s =>
    unfold optIntText
    dsimp only
    by_cases he : s == ""
    · rw [if_pos he]
      exact ⟨none, rfl⟩
    · rw [if_neg he]
      simp only [truthy, he, Option.getD] at h
      cases hp : pyInt s with
      | none => rw [hp] at h; simp at h
      | some n => exact ⟨some n, rfl⟩

lemma parse_pub_date_ok {pd : Option PubDateElem} (h : dateOk pd = true) :
    ∃ v, parse_pub_date pd = .ok v := by
  cases pd with
  | none => exact ⟨(none, none, none), rfl⟩
  | some pd =>
    unfold dateOk at h
    rw [Bool.and_eq_true] at h
    obtain ⟨hy, hd⟩ := h
    obtain ⟨y, hy'⟩ := optIntText_ok hy
    obtain ⟨d, hd'⟩ := optIntText_ok hd
    unfold parse_pub_date
    dsimp only
    rw [hy']
    dsimp only
    rw [hd']
    exact ⟨_, rfl⟩

lemma extractRefIds_ok : ∀ (ids : List (Option String × Option String))
    (acc : Option Int × Option String),
    (ids.all (fun idp =>
      !(idp.1 == some "pubmed") || !truthy idp.2 || (pyInt (idp.2.getD "")).isSome)) = true →
    ∃ v, extractRefIds ids acc = .ok v := by
  intro ids
  induction ids with
  | nil => exact fun acc _ => ⟨acc, rfl⟩
  | cons idp rest ih =>
    intro acc h
    obtain ⟨ty, tx⟩ := idp
    rw [List.all_cons, Bool.and_eq_true] at h
    obtain ⟨hhd, htl⟩ := h
    unfold extractRefIds
    dsimp only at hhd ⊢
    by_cases hty : ty == some "pubmed"
    · rw [if_pos hty]
      rw [hty] at hhd
      cases htx : tx with
      | none => exact ih _ htl
      | some t =>
        dsimp only
        by_cases hte : t == ""
        · rw [if_pos hte]
          exact ih _ htl
        · rw [if_neg hte]
          rw [htx] at hhd
          simp only [truthy, hte, Option.getD] at hhd
          cases hp : pyInt t with
          | none => rw [hp] at hhd; simp at hhd
          | some n =>
            dsimp only
            exact ih _ htl
    · rw [if_neg hty]
      by_cases hdoi : ty == some "doi"
      · rw [if_pos hdoi]
        exact ih _ htl
      · rw [if_neg hdoi]
        exact ih _ htl

lemma parse_citations_list_ok : ∀ (l : List RefElem),
    (l.all (fun r => r.articleIds.all (fun idp =>
      !(idp.1 == some "pubmed") || !truthy idp.2 || (pyInt (idp.2.getD "")).isSome))) = true →
    ∃ cs, parse_citations_list l = .ok cs := by
  intro l
  induction l with
  | nil => exact fun _ => ⟨[], rfl⟩
  | cons r rest ih =>
    intro h
    rw [List.all_cons, Bool.and_eq_true] at h
    obtain ⟨hhd, htl⟩ := h
    obtain ⟨v, hv⟩ := extractRefIds_ok r.articleIds (none, none) hhd
    obtain ⟨cs, hcs⟩ := ih htl
    unfold parse_citations_list
    rw [hv]
    dsimp only
    rw [hcs]
    dsimp only
    by_cases hskip : (falsyIntOpt v.1 && !truthy v.2) = true
    · rw [if_pos hskip]
      exact ⟨cs, rfl⟩
    · rw [if_neg hskip]
      exact ⟨_, rfl⟩

lemma parse_citations_ok {rl : Option (List RefElem)} (h : refsOk rl = true) :
    ∃ cs, parse_citations rl = .ok cs := by
  cases rl with
  | none => exact ⟨[], rfl⟩
  | some l => exact parse_citations_list_ok l h

/-- A well-formed document parses to a record graph. -/
lemma parse_paper_ok_of_wf {a : Article} (h : wellFormedDoc a = true) :
    ∃ p, parse_paper a = .ok (some p) := by
  unfold wellFormedDoc at h
  simp only [Bool.and_eq_true] at h
  obtain ⟨⟨⟨⟨hpm, hpi⟩, hti⟩, hdate⟩, hrefs⟩ := h
  unfold parse_paper
  cases hpt : a.pmidText with
  | none => rw [hpt] at hpm; cases hpm
  | some pm =>
    rw [hpt] at hpm hpi
    simp only [truthy] at hpm
    dsimp only
    rw [if_neg (by simpa using hpm)]
    simp only [Option.getD] at hpi
    cases hip : pyInt pm with
    | none => rw [hip] at hpi; cases hpi
    | some pmid =>
      dsimp only
      cases htt : a.titleText with
      | none => rw [htt] at hti; cases hti
      | some tt =>
        rw [htt] at hti
        simp only [truthy] at hti
        dsimp only
        rw [if_neg (by simpa using hti)]
        obtain ⟨ymd, hymd⟩ := parse_pub_date_ok hdate
        obtain ⟨cs, hcs⟩ := parse_citations_ok hrefs
        rw [hymd]
        dsimp only
        rw [hcs]
        exact ⟨_, rfl⟩

/-- A document missing its PMID or title is skipped (an `ok none`). -/
lemma parse_paper_skip {a : Article} (h : missingRequired a = true) :
    parse_paper a = .ok none := by
  unfold missingRequired at h
  unfold parse_paper
  cases hpt : a.pmidText with
  | none => rfl
  | some pm =>
    rw [hpt] at h
    dsimp only
    by_cases he : (pm == "") = true
    · rw [if_pos he]
    · rw [if_neg he]
      have he' : (pm == "") = false := by
        cases hb : (pm == "") with
        | false => rfl
        | true => exact absurd hb he
      simp only [truthy, he', Bool.not_false, Bool.not_true, Bool.false_or,
        Bool.true_and, Bool.and_eq_true, Bool.not_eq_true', Option.getD] at h
      obtain ⟨hpi, hti⟩ := h
      cases hip : pyInt pm with
      | none => rw [hip] at hpi; cases hpi
      | some pmid =>
        dsimp only
        cases htt : a.titleText with
        | none => rfl
        | some tt =>
          rw [htt] at hti
          have hti' : (tt == "") = true := by
            simp only [truthy] at hti
            simpa using hti
          dsimp only
          rw [if_pos hti']

lemma not_missing_of_wf {a : Article} (h : wellFormedDoc a = true) :
    missingRequired a = false := by
  unfold wellFormedDoc at h
  unfold missingRequired
  simp only [Bool.and_eq_true] at h
  obtain ⟨⟨⟨⟨hpm, _⟩, hti⟩, _⟩, _⟩ := h
  simp [hpm, hti]

lemma not_wf_of_missing {a : Article} (h : missingRequired a = true) :
    wellFormedDoc a = false := by
  by_cases hw : wellFormedDoc a = true
  · rw [not_missing_of_wf hw] at h; cases h
  · simpa using hw

end XmlParser

namespace XmlParser

/-- The record graph a document yields, when it yields one. -/
def docPaper (a : Article) : Option Paper :=
  match parse_paper a with
  | .ok p? => p?
  | .error _ => none

lemma parse_docs_spec : ∀ (batch : List Article),
    (∀ a ∈ batch, wellFormedDoc a = true ∨ missingRequired a = true) →
    parse_docs batch = .ok (batch.filterMap docPaper, batch.countP missingRequired) ∧
    (batch.filterMap docPaper).length = batch.countP wellFormedDoc := by
  intro batch
  induction batch with
  | nil =>
    intro _
    exact ⟨rfl, rfl⟩
  | cons a rest ih =>
    intro h
    obtain ⟨hok, hlen⟩ := ih (fun a' ha' => h a' (by simp [ha']))
    rcases h a (by simp) with hw | hm
    · obtain ⟨p, hp⟩ := parse_paper_ok_of_wf hw
      have hdp : docPaper a = some p := by rw [docPaper, hp]
      constructor
      · unfold parse_docs
        rw [hp, hok]
        dsimp only
        rw [List.filterMap_cons, hdp, List.countP_cons, not_missing_of_wf hw]
        simp
      · rw [List.filterMap_cons, hdp, List.countP_cons, hw]
        simp [hlen]
    · have hp := parse_paper_skip hm
      have hdp : docPaper a = none := by rw [docPaper, hp]
      constructor
      · unfold parse_docs
        rw [hp, hok]
        dsimp only
        rw [List.filterMap_cons, hdp, List.countP_cons, hm]
        simp
      · rw [List.filterMap_cons, hdp, List.countP_cons, not_wf_of_missing hm]
        simp [hlen]

end XmlParser

namespace XmlParser

/-- Python `dict.get` on a literal association list with distinct keys
agrees with membership. -/
lemma lookup_mem_iff : ∀ {l : List (String × Int)},
    (l.map Prod.fst).Nodup → ∀ (k : String) (m : Int),
    l.lookup k = some m ↔ (k, m) ∈ l := by
  intro l
  induction l with
  | nil => intro _ k m; simp [List.lookup]
  | cons p rest ih =>
    intro hnd k m
    obtain ⟨a, b⟩ := p
    simp only [List.map_cons, List.nodup_cons] at hnd
    unfold List.lookup
    cases hk : k == a with
    | true =>
      have hka : k = a := beq_iff_eq.mp hk
      subst hka
      dsimp only
      constructor
      · intro h
        injection h with h
        exact List.mem_cons.mpr (Or.inl (by rw [h]))
      · intro h
        rcases List.mem_cons.mp h with heq | hmem
        · injection heq with _ h2
          rw [h2]
        · exact absurd (List.mem_map_of_mem Prod.fst hmem) hnd.1
    | false =>
      dsimp only
      rw [ih hnd.2 k m]
      constructor
      · exact fun h => List.mem_cons.mpr (Or.inr h)
      · intro h
        rcases List.mem_cons.mp h with heq | hmem
        · exact absurd (congrArg Prod.fst heq) (by simpa using hk)
        · exact hmem

end XmlParser

namespace Fixtures

open XmlParser DbWriter Pipeline ApiClient

/-- Two author mentions with the same composite key (differing initials)
and one distinct-key mention — concrete inputs for the witnesses. -/
def authA : Author :=
  { last_name := "Smith", fore_name := some "Jane", initials := some "J"
    orcid := none, affiliation := none, position := 1 }

def authB : Author :=
  { last_name := "Smith", fore_name := some "Jane", initials := some "X"
    orcid := none, affiliation := none, position := 2 }

def authC : Author :=
  { last_name := "Smith", fore_name := none, initials := none
    orcid := none, affiliation := none, position := 2 }

/-- A record graph that loads successfully. -/
def paperFix : Paper :=
  { pmid := 1, doi := none, pmc_id := none, title := "T", abstract := none
    language := none, journal_name := none, journal_issn := none
    journal_iso_abbrev := none, pub_year := none, pub_month := none
    pub_day := none, volume := none, issue := none, pages := none
    publication_status := none, authors := [authA, authC], citations := []
    open_access := none }

/-- A record graph whose two author mentions share the composite key, so
its link insert violates the (paper, author) uniqueness and the load fails. -/
def paperFixBad : Paper :=
  { pmid := 2, doi := none, pmc_id := none, title := "T", abstract := none
    language := none, journal_name := none, journal_issn := none
    journal_iso_abbrev := none, pub_year := none, pub_month := none
    pub_day := none, volume := none, issue := none, pages := none
    publication_status := none, authors := [authA, authB], citations := []
    open_access := none }

/-- A well-formed document. -/
def artGood : Article :=
  { pmidText := some "101", titleText := some "A Title"
    articleIds := [], abstractTexts := [], journal := none, pubDate := none
    volumeText := none, issueText := none, pagesText := none
    languageText := none, statusAttr := none, authorList := none
    referenceList := none }

/-- A document whose title element is missing — the skip case. -/
def artNoTitle : Article :=
  { pmidText := some "7", titleText := none
    articleIds := [], abstractTexts := [], journal := none, pubDate := none
    volumeText := none, issueText := none, pagesText := none
    languageText := none, statusAttr := none, authorList := none
    referenceList := none }

/-- A document with a non-numeric PMID text. -/
def artBadPmid : Article :=
  { pmidText := some "ABC", titleText := some "A Title"
    articleIds := [], abstractTexts := [], journal := none, pubDate := none
    volumeText := none, issueText := none, pagesText := none
    languageText := none, statusAttr := none, authorList := none
    referenceList := none }

/-- A document with a non-numeric Year text. -/
def artBadYear : Article :=
  { pmidText := some "8", titleText := some "A Title"
    articleIds := [], abstractTexts := []
    journal := none
    pubDate := some { yearText := some "20x0", monthText := none, dayText := none }
    volumeText := none, issueText := none, pagesText := none
    languageText := none, statusAttr := none, authorList := none
    referenceList := none }

/-- A document with a non-numeric Day text. -/
def artBadDay : Article :=
  { pmidText := some "9", titleText := some "A Title"
    articleIds := [], abstractTexts := []
    journal := none
    pubDate := some { yearText := some "2020", monthText := none, dayText := some "3rd" }
    volumeText := none, issueText := none, pagesText := none
    languageText := none, statusAttr := none, authorList := none
    referenceList := none }

end Fixtures

open XmlParser DbWriter Pipeline ApiClient Fixtures

/-- **C2** Per-record load atomicity: whenever any step of `insert_paper`'s
insert sequence (paper row, authors, links, citations, open access,
fetch log, search source) raises, the transaction is rolled back — the
store is exactly the pre-call store, so no row of the record graph is
visible — the failure is appended to the external failure log as
(timestamp, identifier, message), and `insert_paper` returns `False`
instead of propagating. -/
theorem insert_paper_atomic_rollback (db : Db) (flog : List FailEntry)
    (p : Paper) (ts : Nat) (src q : String) (e : String)
    (h : runInsertSteps db p ts src q = .error e) :
    insert_paper db flog p ts src q =
      (false, db, flog ++ [{ ts := ts, pmid := p.pmid, msg := e }]) :=
  insert_paper_false_shape h

/-- Witness for C2 at a concrete input: a record graph with two author
mentions of the same composite key fails the link insert and rolls back. -/
theorem insert_paper_atomic_rollback_witness :
    runInsertSteps emptyDb paperFixBad 0 "s" "q" =
      .error "UNIQUE constraint failed: paper_authors.pmid, paper_authors.author_id" ∧
    insert_paper emptyDb [] paperFixBad 0 "s" "q" =
      (false, emptyDb,
       [{ ts := 0, pmid := 2,
          msg := "UNIQUE constraint failed: paper_authors.pmid, paper_authors.author_id" }]) :=
  ⟨rfl,
   insert_paper_atomic_rollback emptyDb [] paperFixBad 0 "s" "q"
     "UNIQUE constraint failed: paper_authors.pmid, paper_authors.author_id" rfl⟩

/-- **C3** Idempotency-oracle soundness and completeness: over every store
state reachable through the loader (`loadTrace` from an empty store), an
identifier is in `get_fetched_pmids` iff some prior `insert_paper` call for
that identifier returned success (and, by C2's atomicity, committed the
full record graph). -/
theorem fetched_pmids_iff_committed (src q : String) (tr : List (Paper × Nat))
    (m : Int) :
    m ∈ get_fetched_pmids (loadTrace src q emptyDb tr).1 ↔
      (m, true) ∈ (loadTrace src q emptyDb tr).2 := by
  rw [loadTrace_fetched]
  simp [get_fetched_pmids, emptyDb]

/-- **C4 counterexample**: a failed `insert_paper` call adds no fetch-log
row at all — the claim that every call durably adds exactly one attempt
row, failures included, is false at this input. -/
theorem fetch_log_not_recorded_on_failure :
    (insert_paper emptyDb [] paperFixBad 0 "s" "q").1 = false ∧
    (insert_paper emptyDb [] paperFixBad 0 "s" "q").2.1.fetch_log = [] := by
  constructor
  · decide
  · decide

/-- **C4 amended**: exactly one fetch-log row (success = 1, with the call's
timestamp) is durably added per successful `insert_paper` call; a failed
call adds none — the rollback removes it, and the failure is recorded only
in the external failure log. -/
theorem fetch_log_row_iff_success (db : Db) (flog : List FailEntry) (p : Paper)
    (ts : Nat) (src q : String) :
    (insert_paper db flog p ts src q).2.1.fetch_log =
      (if (insert_paper db flog p ts src q).1 then
        db.fetch_log ++
          [{ pmid := p.pmid, fetch_attempt_date := ts, fetch_success := true,
             retry_count := 0 }]
      else db.fetch_log) := by
  cases hr : (insert_paper db flog p ts src q).1 with
  | true =>
    rw [if_pos rfl]
    exact (insert_paper_true_shape hr).2.1
  | false =>
    rw [if_neg (by simp)]
    rw [(insert_paper_false_shape' hr).1]

/-- **C5** Author identity resolution: on a store whose author table is well
formed, two successive `_get_or_create_author` calls resolve to the same
stored id iff their composite keys (last name, given name, ORCID) are
exactly equal — absence compares equal to absence only — and on a match
the author table is left entirely unchanged (first-write-wins on
auxiliary fields such as initials, whatever the second call passes). -/
theorem author_identity_resolution (db : Db) (l₁ l₂ : String)
    (f₁ o₁ i₁ f₂ o₂ i₂ : Option String)
    (hn : (db.authors.map (fun r => r.author_id)).Nodup)
    (hlt : ∀ r ∈ db.authors, r.author_id < db.next_author_id) :
    (((l₁, f₁, o₁) : AuthKey) = (l₂, f₂, o₂) →
      (_get_or_create_author (_get_or_create_author db l₁ f₁ i₁ o₁).2 l₂ f₂ i₂ o₂).1 =
        (_get_or_create_author db l₁ f₁ i₁ o₁).1 ∧
      (_get_or_create_author (_get_or_create_author db l₁ f₁ i₁ o₁).2 l₂ f₂ i₂ o₂).2 =
        (_get_or_create_author db l₁ f₁ i₁ o₁).2) ∧
    (((l₁, f₁, o₁) : AuthKey) ≠ (l₂, f₂, o₂) →
      (_get_or_create_author (_get_or_create_author db l₁ f₁ i₁ o₁).2 l₂ f₂ i₂ o₂).1 ≠
        (_get_or_create_author db l₁ f₁ i₁ o₁).1) := by
  constructor
  · rintro heq
    have h1 : l₂ = l₁ := (congrArg (fun k : AuthKey => k.1) heq).symm
    have h2 : f₂ = f₁ := (congrArg (fun k : AuthKey => k.2.1) heq).symm
    have h3 : o₂ = o₁ := (congrArg (fun k : AuthKey => k.2.2) heq).symm
    rw [h1, h2, h3]
    cases hf : findId db.authors (l₁, f₁, o₁) with
    | some i =>
      rw [gca_found i₁ hf]
      rw [gca_found i₂ hf]
      exact ⟨rfl, rfl⟩
    | none =>
      rw [gca_miss i₁ hf]
      have hf' : findId (db.authors ++
          [{ author_id := db.next_author_id, last_name := l₁
             fore_name := f₁, initials := i₁, orcid := o₁ }]) (l₁, f₁, o₁) =
          some db.next_author_id := by
        rw [findId_append_of_none hf]
        unfold findId
        rw [List.find?_cons]
        simp [keyMatch]
      rw [gca_found i₂ hf']
      exact ⟨rfl, rfl⟩
  · rintro hne
    have hkm : keyMatch (l₂, f₂, o₂)
        { author_id := db.next_author_id, last_name := l₁
          fore_name := f₁, initials := i₁, orcid := o₁ } = false := by
      cases hb : keyMatch (l₂, f₂, o₂)
          { author_id := db.next_author_id, last_name := l₁
            fore_name := f₁, initials := i₁, orcid := o₁ } with
      | false => rfl
      | true =>
        obtain ⟨e1, e2, e3⟩ := keyMatch_iff.mp hb
        exact absurd (by simp_all : ((l₁, f₁, o₁) : AuthKey) = (l₂, f₂, o₂)) hne
    cases hf₁ : findId db.authors (l₁, f₁, o₁) with
    | some i =>
      rw [gca_found i₁ hf₁]
      cases hf₂ : findId db.authors (l₂, f₂, o₂) with
      | some j =>
        rw [gca_found i₂ hf₂]
        exact (findId_inj hn hf₂ hf₁ (fun hc => hne hc.symm))
      | none =>
        rw [gca_miss i₂ hf₂]
        have := findId_lt hlt hf₁
        show db.next_author_id ≠ i
        omega
    | none =>
      rw [gca_miss i₁ hf₁]
      cases hf₂ : findId db.authors (l₂, f₂, o₂) with
      | some j =>
        have hf₂' : findId (db.authors ++
            [{ author_id := db.next_author_id, last_name := l₁
               fore_name := f₁, initials := i₁, orcid := o₁ }]) (l₂, f₂, o₂) =
            some j := findId_append_of_left hf₂
        rw [gca_found i₂ hf₂']
        have := findId_lt hlt hf₂
        show j ≠ db.next_author_id
        omega
      | none =>
        have hf₂' : findId (db.authors ++
            [{ author_id := db.next_author_id, last_name := l₁
               fore_name := f₁, initials := i₁, orcid := o₁ }]) (l₂, f₂, o₂) = none := by
          rw [findId_append_of_none hf₂]
          unfold findId
          rw [List.find?_cons]
          rw [hkm]
          rfl
        rw [gca_miss i₂ hf₂']
        show db.next_author_id + 1 ≠ db.next_author_id
        omega

/-- Witness for C5 at concrete inputs: a mention with a given name and one
without resolve to two distinct identities on an empty author table. -/
theorem author_identity_resolution_witness :
    (([] : List AuthorRow).map (fun r => r.author_id)).Nodup ∧
    (∀ r ∈ ([] : List AuthorRow), r.author_id < emptyDb.next_author_id) ∧
    ((((("Smith", some "Jane", none) : AuthKey) = (("Smith", none, none) : AuthKey)) →
      (_get_or_create_author (_get_or_create_author emptyDb "Smith" (some "Jane") (some "J") none).2
        "Smith" none none none).1 =
        (_get_or_create_author emptyDb "Smith" (some "Jane") (some "J") none).1 ∧
      (_get_or_create_author (_get_or_create_author emptyDb "Smith" (some "Jane") (some "J") none).2
        "Smith" none none none).2 =
        (_get_or_create_author emptyDb "Smith" (some "Jane") (some "J") none).2) ∧
    (((("Smith", some "Jane", none) : AuthKey) ≠ (("Smith", none, none) : AuthKey)) →
      (_get_or_create_author (_get_or_create_author emptyDb "Smith" (some "Jane") (some "J") none).2
        "Smith" none none none).1 ≠
        (_get_or_create_author emptyDb "Smith" (some "Jane") (some "J") none).1)) :=
  ⟨by decide, by decide,
   author_identity_resolution emptyDb "Smith" "Smith" (some "Jane") none (some "J")
     none none none (by decide) (by decide)⟩

/-- **C6** Transform leniency: a batch of N well-formed documents and M
documents missing (or empty in) their PMID or title yields exactly the N
record graphs, in document order (`filterMap` over the batch), together
with M skip diagnostics, and raises no error; each skipped document
affects only itself. -/
theorem transform_leniency (batch : List Article)
    (h : ∀ a ∈ batch, wellFormedDoc a = true ∨ missingRequired a = true) :
    parse_xml_batch batch =
      .ok (batch.filterMap docPaper, batch.countP missingRequired) ∧
    (batch.filterMap docPaper).length = batch.countP wellFormedDoc := by
  exact parse_docs_spec batch h

/-- Witness for C6 at a concrete batch: one well-formed document plus one
document with a missing title parse to one record graph and one skip. -/
theorem transform_leniency_witness :
    (∀ a ∈ [artGood, artNoTitle], wellFormedDoc a = true ∨ missingRequired a = true) ∧
    parse_xml_batch [artGood, artNoTitle] =
      .ok ([artGood, artNoTitle].filterMap docPaper,
           [artGood, artNoTitle].countP missingRequired) ∧
    ([artGood, artNoTitle].filterMap docPaper).length =
      [artGood, artNoTitle].countP wellFormedDoc := by
  have h : ∀ a ∈ [artGood, artNoTitle], wellFormedDoc a = true ∨ missingRequired a = true := by
    intro a ha
    rcases List.mem_cons.mp ha with rfl | ha
    · exact Or.inl rfl
    rcases List.mem_cons.mp ha with rfl | ha
    · exact Or.inr rfl
    · cases ha
  exact ⟨h, (transform_leniency [artGood, artNoTitle] h).1,
    (transform_leniency [artGood, artNoTitle] h).2⟩

/-- **C7** Month normalization: `_normalize_month` returns a month number
exactly for numeral texts in 1–12 (Python `int()` semantics) and for
case-insensitive English month names/abbreviations from its table; every
other string — numerals outside 1–12 included — yields `None`. The
function is total in the embedding: the `ValueError` of `int()` is caught,
so it never raises. -/
theorem normalize_month_spec (s : String) (m : Int) :
    _normalize_month s = some m ↔
      ((∃ n, pyInt s = some n ∧ 1 ≤ n ∧ n ≤ 12 ∧ m = n) ∨
        (pyInt s = none ∧ (pyLower s, m) ∈ monthNames)) := by
  unfold _normalize_month
  cases hp : pyInt s with
  | some n =>
    dsimp only
    by_cases hr : 1 ≤ n ∧ n ≤ 12
    · rw [if_pos hr]
      constructor
      · intro h
        injection h with h
        exact Or.inl ⟨n, rfl, hr.1, hr.2, h.symm⟩
      · rintro (⟨n', hn', _, _, rfl⟩ | ⟨hnone, _⟩)
        · injection hn' with hn'
          rw [hn']
        · cases hnone
    · rw [if_neg hr]
      constructor
      · intro h
        cases h
      · rintro (⟨n', hn', h1, h2, rfl⟩ | ⟨hnone, _⟩)
        · injection hn' with hn'
          exact absurd ⟨hn' ▸ h1, hn' ▸ h2⟩ hr
        · cases hnone
  | none =>
    dsimp only
    have hnd : (monthNames.map Prod.fst).Nodup := by decide
    rw [lookup_mem_iff hnd]
    constructor
    · exact fun h => Or.inr ⟨rfl, h⟩
    · rintro (⟨n', hn', _⟩ | ⟨_, hmem⟩)
      · cases hn'
      · exact hmem

/-- **C9** Permanent client errors are terminal: from any reachable attempt
of `_retry_request`, a response whose status is 4xx other than 429 raises
immediately — the trace after that response holds no backoff sleep and no
further request, however many attempts remain in the budget. -/
theorem client_error_terminal (out : Nat → Outcome) (base cap m attempt s ra : Nat)
    (hlt : attempt < m) (hout : out attempt = .http s ra)
    (h4 : 400 ≤ s) (h5 : s < 500) (h429 : s ≠ 429) :
    retryGo out base cap m attempt = (.error (.httpErr s), [.req attempt]) := by
  unfold retryGo
  rw [dif_pos hlt, hout]
  dsimp only
  rw [if_pos (⟨h4, by omega⟩ : 400 ≤ s ∧ s < 600)]
  rw [if_neg h429]
  rw [if_neg (by omega : ¬ 500 ≤ s)]

/-- Witness for C9 at a concrete input: a 404 on the first attempt of a
three-attempt budget raises at once, with one request and no sleep. -/
theorem client_error_terminal_witness :
    0 < 3 ∧ (fun _ : Nat => Outcome.http 404 0) 0 = .http 404 0 ∧ 400 ≤ 404 ∧
    404 < 500 ∧ 404 ≠ 429 ∧
    retryGo (fun _ => .http 404 0) 2 60 3 0 = (.error (.httpErr 404), [.req 0]) :=
  ⟨by decide, rfl, by decide, by decide, by decide,
   client_error_terminal (fun _ => .http 404 0) 2 60 3 0 404 0
     (by decide) rfl (by decide) (by decide) (by decide)⟩

/-- **C10** The transformer's leniency covers only missing or empty required
fields, not malformed values: a batch whose second document carries a
non-numeric PMID (resp. Year, Day) text raises a `ValueError` from `int()`
and aborts the whole batch — the well-formed first document is lost too,
instead of the bad document being skipped. -/
theorem malformed_values_abort_batch :
    parse_xml_batch [artGood, artBadPmid] =
      .error "invalid literal for int() with base 10: ABC" ∧
    parse_xml_batch [artGood, artBadYear] =
      .error "invalid literal for int() with base 10: 20x0" ∧
    parse_xml_batch [artGood, artBadDay] =
      .error "invalid literal for int() with base 10: 3rd" :=
  ⟨rfl, rfl, rfl⟩

/-- **C1** Idempotence of the orchestrator: for every well-formed store
state and query (same search count and pages), running `Pipeline.run` twice
in succession inserts zero papers on the second run and leaves the store —
hence all row counts — exactly as after the first run; every identifier
committed in run one is in `get_fetched_pmids` at the start of run two and
is skipped before `insert_paper` is called. -/
theorem pipeline_run_idempotent (batches : List (Option (List Paper)))
    (total : Nat) (db0 : Db) (flog0 : List FailEntry) (ts₁ ts₂ : Nat)
    (src q : String) (hwf : wfDb db0) :
    (run batches total (run batches total db0 flog0 ts₁ src q).db
      (run batches total db0 flog0 ts₁ src q).flog ts₂ src q).db =
        (run batches total db0 flog0 ts₁ src q).db ∧
    (run batches total (run batches total db0 flog0 ts₁ src q).db
      (run batches total db0 flog0 ts₁ src q).flog ts₂ src q).inserted = 0 ∧
    (∀ m : Int, (m, true) ∈ (run batches total db0 flog0 ts₁ src q).attempts →
      m ∈ get_fetched_pmids (run batches total db0 flog0 ts₁ src q).db ∧
      ∀ b : Bool, (m, b) ∉ (run batches total (run batches total db0 flog0 ts₁ src q).db
        (run batches total db0 flog0 ts₁ src q).flog ts₂ src q).attempts) := by
  obtain ⟨hwf1, hpost, hatt1⟩ := run_post batches total db0 flog0 ts₁ src q hwf
  rw [run_eq batches total (run batches total db0 flog0 ts₁ src q).db
    (run batches total db0 flog0 ts₁ src q).flog ts₂ src q]
  by_cases hc : total =
      (get_fetched_pmids (run batches total db0 flog0 ts₁ src q).db).length
  · rw [if_pos hc]
    refine ⟨rfl, rfl, ?_⟩
    intro m hm
    refine ⟨hatt1 (m, true) hm rfl, ?_⟩
    intro b hb
    simp at hb
  · rw [if_neg hc]
    rcases hpost with ⟨hc0, hdb0, _⟩ | hsat
    · rw [hdb0] at hc
      exact absurd hc0 hc
    · have hinv' := foldl_batches_noop ts₂ src q batches
        ⟨(run batches total db0 flog0 ts₁ src q).db,
         (run batches total db0 flog0 ts₁ src q).flog,
         get_fetched_pmids (run batches total db0 flog0 ts₁ src q).db, 0, 0, 0, []⟩
        hwf1 hsat ⟨rfl, rfl, rfl, by rintro ab hab; cases hab⟩
      refine ⟨hinv'.dbEq, hinv'.ins, ?_⟩
      intro m hm
      refine ⟨hatt1 (m, true) hm rfl, ?_⟩
      intro b hb
      exact hinv'.att (m, b) hb (hatt1 (m, true) hm rfl)

/-- Witness for C1 at a concrete input: one page with one loadable paper
against an empty store. -/
theorem pipeline_run_idempotent_witness :
    wfDb emptyDb ∧
    ((run [some [paperFix]] 1 (run [some [paperFix]] 1 emptyDb [] 0 "s" "q").db
      (run [some [paperFix]] 1 emptyDb [] 0 "s" "q").flog 1 "s" "q").db =
        (run [some [paperFix]] 1 emptyDb [] 0 "s" "q").db ∧
    (run [some [paperFix]] 1 (run [some [paperFix]] 1 emptyDb [] 0 "s" "q").db
      (run [some [paperFix]] 1 emptyDb [] 0 "s" "q").flog 1 "s" "q").inserted = 0 ∧
    (∀ m : Int, (m, true) ∈ (run [some [paperFix]] 1 emptyDb [] 0 "s" "q").attempts →
      m ∈ get_fetched_pmids (run [some [paperFix]] 1 emptyDb [] 0 "s" "q").db ∧
      ∀ b : Bool, (m, b) ∉ (run [some [paperFix]] 1
        (run [some [paperFix]] 1 emptyDb [] 0 "s" "q").db
        (run [some [paperFix]] 1 emptyDb [] 0 "s" "q").flog 1 "s" "q").attempts)) :=
  ⟨by decide, pipeline_run_idempotent [some [paperFix]] 1 emptyDb [] 0 1 "s" "q" (by decide)⟩

/-- **C8 counterexample**: within a single run, a record graph whose load
fails (duplicate author key) and which appears on two pages is passed to
`insert_paper` twice — the in-memory processed set only guards identifiers
whose insert succeeded, so "insert_paper is called at most once per
identifier per run" is false at this input. -/
theorem insert_paper_retried_within_run :
    (run [some [paperFixBad], some [paperFixBad]] 2 emptyDb [] 0 "s" "q").attempts =
      [(2, false), (2, false)] ∧
    ((run [some [paperFixBad], some [paperFixBad]] 2 emptyDb [] 0 "s" "q").attempts.countP
      (fun ab => ab.1 == 2)) = 2 := by
  constructor
  · decide
  · decide

/-- **C8 amended**: within a single `Pipeline.run`, for every identifier at
most one `insert_paper` call succeeds — an identifier in the in-memory
processed set (pre-existing or added on a successful insert) is skipped
before load; only an identifier whose earlier attempt failed can be
attempted again when it reappears. -/
theorem at_most_one_successful_insert_per_run
    (batches : List (Option (List Paper))) (total : Nat) (db0 : Db)
    (flog0 : List FailEntry) (ts : Nat) (src q : String) (m : Int) :
    ((run batches total db0 flog0 ts src q).attempts.countP
      (fun ab => ab.1 == m && ab.2)) ≤ 1 := by
  rw [run_eq]
  by_cases hc : total = (get_fetched_pmids db0).length
  · rw [if_pos hc]
    simp
  · rw [if_neg hc]
    have hinv : Inv3 m ⟨db0, flog0, get_fetched_pmids db0, 0, 0, 0, []⟩ :=
      ⟨by simp, by rintro h; cases h⟩
    exact (foldl_batches_succ_count batches _ hinv).cnt
